import Mathlib

/-!
# Homecorrupter terminal view: state machine of `TerminalView`

A shallow embedding of `src/ui/terminal_view.cpp` (with the fields declared in
`src/ui/terminal_view.h`), followed by theorems about it.

Modelling choices, all visible in the definitions below:

* a C++ `char` is an `Int` (a signed 8-bit value lies in `-128 .. 127`; nothing
  below depends on the range, so every theorem holds for every integer);
  `std::string` is a list of such characters and `std::vector<std::string>` a
  list of strings, oldest element first;
* `int historyIndex` is an `Int`; `static_cast<int>(history.size())` is the
  length itself (a history of `2^31` strings is out of reach of the program);
* `history[i]` is `vecAt history i`; an index out of range is undefined
  behaviour in C++ and yields the empty string here;
* the wall clock read by the `time` command enters as the already formatted
  text `timeStr`; the steady clock read by `updateCursor` enters as an integer
  number of milliseconds `now`;
* drawing, colours, fonts and `invalid()` do not touch the fields modelled here
  and are left out.
-/

namespace Terminal

/-- A C++ `char`. -/
abbrev CChar := Int

/-- A `std::string`, as the list of its characters. -/
abbrev CString := List CChar

/-- The characters of a string literal of the source. -/
def lit (s : String) : CString :=
  s.toList.map (fun c => Int.ofNat c.toNat)

/-- The conversion `static_cast<char>(x)` of a 32-bit integer: reduction modulo
`2^8` into the signed range. -/
def toChar (x : Int) : CChar :=
  (x + 128) % 256 - 128

/-- The element access `v[i]` of a `std::vector<std::string>` with an `int` index. -/
def vecAt (v : List CString) (i : Int) : CString :=
  if 0 ≤ i then v.getD i.toNat [] else []

/-- The bound `maxLines` of `processCommand`. -/
def maxLines : Nat := 1000

/-- The fields of `TerminalView` that carry the terminal logic, those of the
nested `TerminalState` (`running`, `prompt`, `history`, `historyIndex`) included. -/
structure TerminalView where
  running : Bool
  prompt : CString
  history : List CString
  historyIndex : Int
  cursorVisible : Bool
  lastBlinkTime : Int
  lines : List CString
  currentInput : CString
  terminalActive : Bool

/-- The keys `handleSpecialKey` switches on; `VKEY_OTHER` stands for every
other virtual key code (the `switch` has no `default` branch). -/
inductive VirtualKeyCode where
  | VKEY_RETURN
  | VKEY_BACK
  | VKEY_UP
  | VKEY_DOWN
  | VKEY_ESCAPE
  | VKEY_OTHER

/-- The two fields of `VstKeyCode` read by `onKeyDown`: `virt` is `none` when
the field is `0`, and `character` is the 32-bit character code. -/
structure VstKeyCode where
  virt : Option VirtualKeyCode
  character : Int

/-- The constructor `TerminalView::TerminalView`, `now` being the reading of the
steady clock. -/
def TerminalView.new (now : Int) : TerminalView :=
  let prompt := lit "> "
  { running := false
    prompt := prompt
    history := []
    historyIndex := -1
    cursorVisible := true
    lastBlinkTime := now
    lines := [lit "Homecorrupter Terminal v1.0",
              lit "Type 'help' for available commands",
              lit "",
              prompt]
    currentInput := []
    terminalActive := false }

/-- The method `TerminalView::updateCursor`, polled at time `now` (milliseconds). -/
def updateCursor (s : TerminalView) (now : Int) : TerminalView :=
  let elapsed := now - s.lastBlinkTime
  if elapsed ≥ 500 then
    { s with cursorVisible := !s.cursorVisible, lastBlinkTime := now }
  else s

/-- The state change of `TerminalView::draw`: only `updateCursor` writes a field. -/
def draw (s : TerminalView) (now : Int) : TerminalView :=
  updateCursor s now

/-- The condition under which `draw` calls `drawCursor`. -/
def cursorDrawn (s : TerminalView) : Bool :=
  s.cursorVisible && s.terminalActive

/-- The method `TerminalView::onMouseDown`; `left` is `buttons & kLButton`. -/
def onMouseDown (s : TerminalView) (left : Bool) : TerminalView :=
  if left then { s with terminalActive := true } else s

/-- The method `TerminalView::startTerminal`. -/
def startTerminal (s : TerminalView) : TerminalView :=
  if s.running then s
  else
    { s with
      running := true
      terminalActive := true
      lines := s.lines ++ [lit "Terminal started"] ++ [s.prompt] }

/-- The method `TerminalView::stopTerminal`. -/
def stopTerminal (s : TerminalView) : TerminalView :=
  if !s.running then s
  else { s with running := false, terminalActive := false }

/-- The method `TerminalView::isRunning`. -/
def isRunning (s : TerminalView) : Bool :=
  s.running

/-- The statement `lines.push_back(l)` for each `l` of `ls`, in order. -/
def pushLines (s : TerminalView) (ls : List CString) : TerminalView :=
  { s with lines := s.lines ++ ls }

/-- The end of `processCommand` (source lines 316 to 323): the new prompt is
pushed, then the oldest lines beyond `maxLines` are erased. -/
def reopenPrompt (s : TerminalView) : TerminalView :=
  let s1 := pushLines s [s.prompt]
  if s1.lines.length > maxLines then
    { s1 with lines := s1.lines.drop (s1.lines.length - maxLines) }
  else s1

/-- The lines pushed by the `help` branch of `processCommand` (source lines
281 to 288): the heading, the six command descriptions and an empty line. -/
def helpText : List CString :=
  [lit "Available commands:",
   lit "  help    - Show this help message",
   lit "  clear   - Clear the terminal screen",
   lit "  time    - Display current time",
   lit "  echo    - Echo back the input",
   lit "  info    - Show plugin information",
   lit "  exit    - Close terminal",
   lit ""]

/-- The method `TerminalView::processCommand`; `timeStr` is the local time as
formatted by `std::put_time` with `%Y-%m-%d %H:%M:%S`. -/
def processCommand (timeStr : CString) (s : TerminalView) (command : CString) :
    TerminalView :=
  let s1 := if s.lines ≠ [] then { s with lines := s.lines.dropLast } else s
  let s2 := pushLines s1 [s1.prompt ++ command]
  if command = [] then
    reopenPrompt s2
  else if command = lit "help" then
    reopenPrompt (pushLines s2 helpText)
  else if command = lit "clear" then
    reopenPrompt { s2 with lines := [] }
  else if command = lit "time" then
    reopenPrompt (pushLines s2 [lit "Current time: " ++ timeStr, lit ""])
  else if command.take 5 = lit "echo " then
    reopenPrompt (pushLines s2 [command.drop 5, lit ""])
  else if command = lit "info" then
    reopenPrompt (pushLines s2
      [lit "Homecorrupter VST/AU Plugin",
       lit "Version 1.1.3",
       lit "Terminal powered by libghostty integration",
       lit "(c) igorski.nl 2020-2024",
       lit ""])
  else if command = lit "exit" then
    stopTerminal s2
  else
    reopenPrompt (pushLines s2
      [lit "Unknown command: " ++ command,
       lit "Type 'help' for available commands",
       lit ""])

/-- The method `TerminalView::handleCharInput`. -/
def handleCharInput (timeStr : CString) (s : TerminalView) (c : CChar) : TerminalView :=
  if c = 13 ∨ c = 10 then
    let command := s.currentInput
    let s1 := { s with currentInput := [] }
    let s2 :=
      if command ≠ [] then
        { s1 with
          history := s1.history ++ [command]
          historyIndex := ((s1.history ++ [command]).length : Int) }
      else s1
    processCommand timeStr s2 command
  else if c = 8 ∨ c = 127 then
    if s.currentInput ≠ [] then { s with currentInput := s.currentInput.dropLast } else s
  else if c ≥ 32 ∧ c < 127 then
    { s with currentInput := s.currentInput ++ [c] }
  else s

/-- The method `TerminalView::handleSpecialKey`. -/
def handleSpecialKey (timeStr : CString) (s : TerminalView) :
    VirtualKeyCode → TerminalView
  | .VKEY_RETURN => handleCharInput timeStr s 10
  | .VKEY_BACK => handleCharInput timeStr s 8
  | .VKEY_UP =>
    if s.history ≠ [] ∧ s.historyIndex > 0 then
      let i := s.historyIndex - 1
      { s with historyIndex := i, currentInput := vecAt s.history i }
    else s
  | .VKEY_DOWN =>
    if s.history ≠ [] ∧ s.historyIndex < (s.history.length : Int) - 1 then
      let i := s.historyIndex + 1
      { s with historyIndex := i, currentInput := vecAt s.history i }
    else if s.historyIndex = (s.history.length : Int) - 1 then
      { s with historyIndex := (s.history.length : Int), currentInput := [] }
    else s
  | .VKEY_ESCAPE => { s with currentInput := [] }
  | .VKEY_OTHER => s

/-- The state change of `TerminalView::onKeyDown`. -/
def onKeyDown (timeStr : CString) (s : TerminalView) (keyCode : VstKeyCode) :
    TerminalView :=
  if !s.terminalActive then s
  else
    match keyCode.virt with
    | some k => handleSpecialKey timeStr s k
    | none =>
      if keyCode.character ≠ 0 then handleCharInput timeStr s (toChar keyCode.character)
      else s

/-- The method `TerminalView::sendInput`; the character at position `i` of
`input` is handled while the wall clock reads `clk i`. -/
def sendInput (clk : Nat → CString) (s : TerminalView) : CString → TerminalView
  | [] => s
  | c :: cs => sendInput (fun i => clk (i + 1)) (handleCharInput (clk 0) s c) cs

/-- The method `TerminalView::clear`. -/
def clear (s : TerminalView) : TerminalView :=
  { s with lines := [s.prompt], currentInput := [] }

/-- One call from the host: a public method of `TerminalView`, a host event, or
a character or special key handed to the input handlers. -/
inductive Op where
  | startTerminal
  | stopTerminal
  | sendInput (clk : Nat → CString) (input : CString)
  | handleCharInput (timeStr : CString) (c : CChar)
  | handleSpecialKey (timeStr : CString) (k : VirtualKeyCode)
  | onKeyDown (timeStr : CString) (keyCode : VstKeyCode)
  | onMouseDown (left : Bool)
  | clear
  | draw (now : Int)

/-- The effect of one call on the state. -/
def step (s : TerminalView) : Op → TerminalView
  | .startTerminal => startTerminal s
  | .stopTerminal => stopTerminal s
  | .sendInput clk input => sendInput clk s input
  | .handleCharInput t c => handleCharInput t s c
  | .handleSpecialKey t k => handleSpecialKey t s k
  | .onKeyDown t k => onKeyDown t s k
  | .onMouseDown left => onMouseDown s left
  | .clear => clear s
  | .draw now => draw s now

/-- The state after a sequence of calls, first call first. -/
def run (s : TerminalView) (ops : List Op) : TerminalView :=
  ops.foldl step s

/-! ## Auxiliary definitions used by the theorems -/

/-- The calls `startTerminal(); stopTerminal();` repeated `n` times. -/
def startStopCycles : Nat → List Op
  | 0 => []
  | n + 1 => .startTerminal :: .stopTerminal :: startStopCycles n

/-- The state in which `handleCharInput` calls `processCommand`: the pending
input is cleared and, when it was not empty, recorded in the history. -/
def submitted (s : TerminalView) : TerminalView :=
  if s.currentInput ≠ [] then
    { s with
      currentInput := []
      history := s.history ++ [s.currentInput]
      historyIndex := ((s.history ++ [s.currentInput]).length : Int) }
  else { s with currentInput := [] }

/-- The range of the history cursor: at least `-1`, at most the history
length, and not negative once the history has an entry. -/
def HistoryInv (s : TerminalView) : Prop :=
  -1 ≤ s.historyIndex ∧ s.historyIndex ≤ (s.history.length : Int) ∧
    (s.history ≠ [] → 0 ≤ s.historyIndex)

instance (s : TerminalView) : Decidable (HistoryInv s) := by
  unfold HistoryInv
  exact inferInstance

/-- Whether a call is a mouse-down with the left button. -/
def Op.isLeftClick : Op → Bool
  | .onMouseDown true => true
  | _ => false

/-- The key events that type the characters of `text`, one `onKeyDown` each. -/
def typeText (timeStr : CString) (text : CString) : List Op :=
  text.map (fun c => Op.onKeyDown timeStr { virt := none, character := c })

/-- The key event of the Return key. -/
def pressReturn (timeStr : CString) : Op :=
  Op.onKeyDown timeStr { virt := some .VKEY_RETURN, character := 0 }

/-- The last `k` entries of a list, in their order. -/
def lastN {α : Type} (k : Nat) (l : List α) : List α :=
  l.drop (l.length - k)

/-- The tail of the line buffer between calls: the buffer is not empty and ends
with the prompt, or with the echo line of `exit` while the session is stopped. -/
def PromptInv (s : TerminalView) : Prop :=
  s.prompt = lit "> " ∧ s.lines ≠ [] ∧
    (s.lines.getLast? = some s.prompt ∨
      (s.lines.getLast? = some (s.prompt ++ lit "exit") ∧ s.running = false))

instance (s : TerminalView) : Decidable (PromptInv s) := by
  unfold PromptInv
  exact inferInstance

/-- The output lines of a command, as the branches of `processCommand` push
them between the echo line and the new prompt (`clear` and `exit` push none). -/
def commandOutput (timeStr : CString) (command : CString) : List CString :=
  if command = [] then []
  else if command = lit "help" then helpText
  else if command = lit "clear" then []
  else if command = lit "time" then [lit "Current time: " ++ timeStr, lit ""]
  else if command.take 5 = lit "echo " then [command.drop 5, lit ""]
  else if command = lit "info" then
    [lit "Homecorrupter VST/AU Plugin",
     lit "Version 1.1.3",
     lit "Terminal powered by libghostty integration",
     lit "(c) igorski.nl 2020-2024",
     lit ""]
  else if command = lit "exit" then []
  else
    [lit "Unknown command: " ++ command,
     lit "Type 'help' for available commands",
     lit ""]

/-- The untrimmed sequence of a submission: the old lines without their tail,
the echo line, the output lines of the command, the new prompt. -/
def untrimmedLines (timeStr : CString) (s : TerminalView) (command : CString) :
    List CString :=
  s.lines.dropLast ++ [s.prompt ++ command] ++ commandOutput timeStr command ++ [s.prompt]

/-- The freshly started session in which `help` has been typed and not yet
submitted: constructed at `now`, started, then one key event per character. -/
def helpTyped (now : Int) (timeStr : CString) : TerminalView :=
  run (TerminalView.new now) (Op.startTerminal :: typeText timeStr (lit "help"))

/-- The session `helpTyped` after the Return key. -/
def helpSubmitted (now : Int) (timeStr : CString) : TerminalView :=
  step (helpTyped now timeStr) (pressReturn timeStr)

/-- The Up key pressed `k` times. -/
def pressUp (timeStr : CString) (k : Nat) : List Op :=
  List.replicate k (Op.handleSpecialKey timeStr .VKEY_UP)

/-- A reachable sample state: a started session in which the commands `help`,
`time` and `info` have been submitted, in this order. -/
def sampleSession : TerminalView :=
  run (TerminalView.new 0)
    [.startTerminal,
     .sendInput (fun _ => lit "2024-01-01 12:00:00") (lit "help\ntime\ninfo\n")]

/-- The key event of the Down key. -/
def pressDown (timeStr : CString) : Op :=
  Op.onKeyDown timeStr { virt := some .VKEY_DOWN, character := 0 }

/-- A freshly constructed view that has been focused by a left click and in
which `abc` has been typed: no command has been submitted yet. -/
def freshTyped : TerminalView :=
  run (TerminalView.new 0) (Op.onMouseDown true :: typeText [] (lit "abc"))

/-- A freshly constructed view, never started, that has been focused by a left
click and in which `exit` has been typed. -/
def focusedExitTyped : TerminalView :=
  run (TerminalView.new 0) (Op.onMouseDown true :: typeText [] (lit "exit"))

/-- The sample session with `text` typed and not yet submitted. -/
def sampleTyped (text : CString) : TerminalView :=
  sendInput (fun _ => []) sampleSession text

/-- Whether a character is printable ASCII, `32 .. 126`. -/
def printable (c : CChar) : Prop :=
  32 ≤ c ∧ c ≤ 126

instance (c : CChar) : Decidable (printable c) := by
  unfold printable
  exact inferInstance

/-- The content of the pending input and of the history: every character of the
pending input and of every history entry is printable, and no history entry is
empty. -/
def ContentInv (s : TerminalView) : Prop :=
  (∀ c ∈ s.currentInput, printable c) ∧
    ∀ e ∈ s.history, e ≠ [] ∧ ∀ c ∈ e, printable c

instance (s : TerminalView) : Decidable (ContentInv s) := by
  unfold ContentInv
  exact inferInstance

/-- A session fed with bytes of every kind: control characters, bytes with the
high bit set (negative as signed characters), backspaces, two submissions and
history navigation. -/
def noisySession : TerminalView :=
  run (TerminalView.new 0)
    [.sendInput (fun _ => []) [7, 104, -61, 105, 127, 101, 27, 13, 200, 10, 0, 120, 9, 121, 10],
     .handleSpecialKey [] .VKEY_UP,
     .handleCharInput [] (-1),
     .handleSpecialKey [] .VKEY_UP,
     .handleSpecialKey [] .VKEY_DOWN,
     .handleCharInput [] 126]

/-- Whether every left mouse-down of a sequence of calls, made from the state
`s` on, reaches the view while the session is running. -/
def clicksWhileRunning (s : TerminalView) : List Op → Bool
  | [] => true
  | op :: ops => (!op.isLeftClick || s.running) && clicksWhileRunning (step s op) ops

/-! ## General lemmas -/

theorem run_nil (s : TerminalView) : run s [] = s := rfl

theorem run_cons (s : TerminalView) (op : Op) (ops : List Op) :
    run s (op :: ops) = run (step s op) ops := rfl

theorem run_append (s : TerminalView) (ops₁ ops₂ : List Op) :
    run s (ops₁ ++ ops₂) = run (run s ops₁) ops₂ := by
  simp [run, List.foldl_append]

/-- A property that holds initially and survives every allowed call holds after
every sequence of allowed calls. -/
theorem run_induction (P : TerminalView → Prop) (allowed : Op → Prop)
    (hstep : ∀ s op, allowed op → P s → P (step s op)) :
    ∀ (ops : List Op) (s : TerminalView), (∀ op ∈ ops, allowed op) → P s → P (run s ops) := by
  intro ops
  induction ops with
  | nil => intro s _ hs; exact hs
  | cons op ops ih =>
    intro s hall hs
    rw [run_cons]
    apply ih
    · intro o ho
      exact hall o (List.mem_cons_of_mem _ ho)
    · exact hstep s op (hall op (List.mem_cons_self _ _)) hs

theorem sendInput_preserves (P : TerminalView → Prop)
    (hchar : ∀ t s c, P s → P (handleCharInput t s c)) :
    ∀ (input : CString) (clk : Nat → CString) (s : TerminalView),
      P s → P (sendInput clk s input) := by
  intro input
  induction input with
  | nil => intro clk s hs; exact hs
  | cons c cs ih =>
    intro clk s hs
    exact ih _ _ (hchar _ _ _ hs)

theorem onKeyDown_preserves (P : TerminalView → Prop)
    (hchar : ∀ t s c, P s → P (handleCharInput t s c))
    (hkey : ∀ t s k, P s → P (handleSpecialKey t s k))
    (t : CString) (s : TerminalView) (keyCode : VstKeyCode) (hs : P s) :
    P (onKeyDown t s keyCode) := by
  unfold onKeyDown
  by_cases ha : (!s.terminalActive) = true
  · rw [if_pos ha]; exact hs
  · rw [if_neg ha]
    cases keyCode.virt with
    | some k => exact hkey _ _ _ hs
    | none =>
      by_cases hc : keyCode.character ≠ 0
      · simp only [if_pos hc]; exact hchar _ _ _ hs
      · simp only [if_neg hc]; exact hs

/-- A property kept by each method is kept by every call. -/
theorem step_preserves (P : TerminalView → Prop)
    (hstart : ∀ s, P s → P (startTerminal s))
    (hstop : ∀ s, P s → P (stopTerminal s))
    (hchar : ∀ t s c, P s → P (handleCharInput t s c))
    (hkey : ∀ t s k, P s → P (handleSpecialKey t s k))
    (hmouse : ∀ s left, P s → P (onMouseDown s left))
    (hclear : ∀ s, P s → P (clear s))
    (hdraw : ∀ s now, P s → P (draw s now)) :
    ∀ s op, P s → P (step s op) := by
  intro s op hs
  cases op with
  | startTerminal => exact hstart s hs
  | stopTerminal => exact hstop s hs
  | sendInput clk input => exact sendInput_preserves P hchar input clk s hs
  | handleCharInput t c => exact hchar t s c hs
  | handleSpecialKey t k => exact hkey t s k hs
  | onKeyDown t k => exact onKeyDown_preserves P hchar hkey t s k hs
  | onMouseDown left => exact hmouse s left hs
  | clear => exact hclear s hs
  | draw now => exact hdraw s now hs

/-- A property kept by each method holds in every state reached from a state
that has it. -/
theorem run_preserves (P : TerminalView → Prop)
    (hstart : ∀ s, P s → P (startTerminal s))
    (hstop : ∀ s, P s → P (stopTerminal s))
    (hchar : ∀ t s c, P s → P (handleCharInput t s c))
    (hkey : ∀ t s k, P s → P (handleSpecialKey t s k))
    (hmouse : ∀ s left, P s → P (onMouseDown s left))
    (hclear : ∀ s, P s → P (clear s))
    (hdraw : ∀ s now, P s → P (draw s now))
    (ops : List Op) (s : TerminalView) (hs : P s) : P (run s ops) :=
  run_induction P (fun _ => True)
    (fun s op _ h => step_preserves P hstart hstop hchar hkey hmouse hclear hdraw s op h)
    ops s (fun _ _ => trivial) hs

/-! ## The shape of `processCommand` -/

theorem popLast_eq (s : TerminalView) :
    (if s.lines ≠ [] then { s with lines := s.lines.dropLast } else s) =
      { s with lines := s.lines.dropLast } := by
  by_cases h : s.lines = []
  · cases s
    simp_all
  · simp [h]

/-- Every run of `processCommand` ends either in the `exit` branch or in the
common tail that reopens the prompt. -/
theorem processCommand_shape (t : CString) (s : TerminalView) (command : CString) :
    (command = lit "exit" ∧ processCommand t s command =
        stopTerminal { s with lines := s.lines.dropLast ++ [s.prompt ++ command] }) ∨
    ∃ ls, processCommand t s command = reopenPrompt { s with lines := ls } := by
  unfold processCommand
  simp only [popLast_eq, pushLines]
  split_ifs with h1 h2 h3 h4 h5 h6 h7
  all_goals first
    | exact Or.inr ⟨_, rfl⟩
    | exact Or.inl ⟨h7, rfl⟩

/-- The fields `reopenPrompt` leaves alone. -/
theorem reopenPrompt_fields (s : TerminalView) :
    (reopenPrompt s).history = s.history ∧
    (reopenPrompt s).historyIndex = s.historyIndex ∧
    (reopenPrompt s).currentInput = s.currentInput ∧
    (reopenPrompt s).prompt = s.prompt ∧
    (reopenPrompt s).running = s.running ∧
    (reopenPrompt s).terminalActive = s.terminalActive ∧
    (reopenPrompt s).cursorVisible = s.cursorVisible ∧
    (reopenPrompt s).lastBlinkTime = s.lastBlinkTime := by
  unfold reopenPrompt pushLines
  dsimp only
  split_ifs <;> simp

/-- The fields `stopTerminal` leaves alone. -/
theorem stopTerminal_fields (s : TerminalView) :
    (stopTerminal s).history = s.history ∧
    (stopTerminal s).historyIndex = s.historyIndex ∧
    (stopTerminal s).currentInput = s.currentInput ∧
    (stopTerminal s).prompt = s.prompt ∧
    (stopTerminal s).lines = s.lines ∧
    (stopTerminal s).cursorVisible = s.cursorVisible ∧
    (stopTerminal s).lastBlinkTime = s.lastBlinkTime := by
  unfold stopTerminal
  split_ifs <;> simp

/-- The method `processCommand` writes neither the history, nor the history
cursor, nor the pending input, nor the prompt. -/
theorem processCommand_fields (t : CString) (s : TerminalView) (command : CString) :
    (processCommand t s command).history = s.history ∧
    (processCommand t s command).historyIndex = s.historyIndex ∧
    (processCommand t s command).currentInput = s.currentInput ∧
    (processCommand t s command).prompt = s.prompt := by
  rcases processCommand_shape t s command with ⟨_, h⟩ | ⟨ls, h⟩
  · rw [h]
    obtain ⟨h1, h2, h3, h4, _⟩ := stopTerminal_fields
      { s with lines := s.lines.dropLast ++ [s.prompt ++ command] }
    exact ⟨h1, h2, h3, h4⟩
  · rw [h]
    obtain ⟨h1, h2, h3, h4, _⟩ := reopenPrompt_fields { s with lines := ls }
    exact ⟨h1, h2, h3, h4⟩

theorem handleCharInput_submit (t : CString) (s : TerminalView) (c : CChar)
    (hc : c = 13 ∨ c = 10) :
    handleCharInput t s c = processCommand t (submitted s) s.currentInput := by
  simp only [handleCharInput, if_pos hc, submitted]

theorem handleCharInput_erase (t : CString) (s : TerminalView) (c : CChar)
    (hc : ¬(c = 13 ∨ c = 10)) (hb : c = 8 ∨ c = 127) :
    handleCharInput t s c = { s with currentInput := s.currentInput.dropLast } := by
  simp only [handleCharInput, if_neg hc, if_pos hb]
  by_cases h : s.currentInput = []
  · cases s
    simp_all
  · simp [h]

theorem handleCharInput_printable (t : CString) (s : TerminalView) (c : CChar)
    (hc : ¬(c = 13 ∨ c = 10)) (hb : ¬(c = 8 ∨ c = 127)) (hp : c ≥ 32 ∧ c < 127) :
    handleCharInput t s c = { s with currentInput := s.currentInput ++ [c] } := by
  simp only [handleCharInput, if_neg hc, if_neg hb, if_pos hp]

theorem handleCharInput_ignored (t : CString) (s : TerminalView) (c : CChar)
    (hc : ¬(c = 13 ∨ c = 10)) (hb : ¬(c = 8 ∨ c = 127)) (hp : ¬(c ≥ 32 ∧ c < 127)) :
    handleCharInput t s c = s := by
  simp only [handleCharInput, if_neg hc, if_neg hb, if_neg hp]

/-- Outside a submission `handleCharInput` writes the pending input only. -/
theorem handleCharInput_edit (t : CString) (s : TerminalView) (c : CChar)
    (hc : ¬(c = 13 ∨ c = 10)) :
    ∃ inp, handleCharInput t s c = { s with currentInput := inp } := by
  by_cases hb : c = 8 ∨ c = 127
  · exact ⟨_, handleCharInput_erase t s c hc hb⟩
  · by_cases hp : c ≥ 32 ∧ c < 127
    · exact ⟨_, handleCharInput_printable t s c hc hb hp⟩
    · exact ⟨s.currentInput, handleCharInput_ignored t s c hc hb hp⟩

/-! ## The history cursor -/

theorem run_startStopCycles (n : Nat) :
    ∀ s : TerminalView, s.running = false →
      (run s (startStopCycles n)).running = false ∧
      (run s (startStopCycles n)).lines.length = s.lines.length + 2 * n := by
  induction n with
  | zero => intro s h; exact ⟨h, rfl⟩
  | succ n ih =>
    intro s h
    have hs : (stopTerminal (startTerminal s)).running = false ∧
        (stopTerminal (startTerminal s)).lines.length = s.lines.length + 2 := by
      simp [startTerminal, stopTerminal, h]
    obtain ⟨h1, h2⟩ := ih (stopTerminal (startTerminal s)) hs.1
    simp only [startStopCycles, run_cons, step]
    refine ⟨h1, ?_⟩
    rw [h2, hs.2]
    omega

/-- C1, the code at the failing input: after 499 repetitions of
`startTerminal(); stopTerminal();` on a freshly constructed view the line buffer
holds 1002 lines, more than the 1000 of the scrollback bound, because
`startTerminal` pushes its two lines without trimming. -/
theorem C1_scrollback_exceeded :
    (run (TerminalView.new 0) (startStopCycles 499)).lines.length = 1002 ∧
    1000 < (run (TerminalView.new 0) (startStopCycles 499)).lines.length := by
  have h := (run_startStopCycles 499 (TerminalView.new 0) rfl).2
  have h4 : (TerminalView.new 0).lines.length = 4 := rfl
  rw [h4] at h
  omega

/-- C3, the code at the failing input: on a freshly constructed view, focused by
a click, with `abc` typed (empty history, nothing selected), the Down key
empties the pending input and moves the history cursor from `-1` to `0`. -/
theorem C3_down_clears_fresh_input :
    freshTyped.history = [] ∧
    freshTyped.historyIndex = -1 ∧
    freshTyped.currentInput = lit "abc" ∧
    (step freshTyped (pressDown [])).currentInput = [] ∧
    (step freshTyped (pressDown [])).historyIndex = 0 := by
  decide

/-- With the cursor past the last entry, as a submission leaves it, the Down
key changes nothing. -/
theorem handleSpecialKey_down_at_end (t : CString) (s : TerminalView)
    (h : s.historyIndex = (s.history.length : Int)) :
    handleSpecialKey t s .VKEY_DOWN = s := by
  simp only [handleSpecialKey]
  rw [if_neg (by omega), if_neg (by omega)]

/-! ## The prompt at the tail of the line buffer -/

theorem reopenPrompt_lines (s : TerminalView) :
    (reopenPrompt s).lines = lastN maxLines (s.lines ++ [s.prompt]) := by
  unfold reopenPrompt pushLines lastN
  dsimp only
  split_ifs with h
  · dsimp only
  · have : (s.lines ++ [s.prompt]).length - maxLines = 0 := by omega
    rw [this]
    dsimp only
    rw [List.drop_zero]

theorem lastN_getLast? {α : Type} (k : Nat) (l : List α) (hk : 0 < k) :
    (lastN k l).getLast? = l.getLast? := by
  unfold lastN
  rw [List.getLast?_drop]
  split_ifs with h
  · have : l.length = 0 := by omega
    rw [List.length_eq_zero] at this
    rw [this]
    rfl
  · rfl

theorem reopenPrompt_getLast? (s : TerminalView) :
    (reopenPrompt s).lines.getLast? = some s.prompt := by
  rw [reopenPrompt_lines, lastN_getLast? _ _ (by decide), List.getLast?_concat]

theorem getLast?_some_ne_nil {α : Type} {l : List α} {a : α} (h : l.getLast? = some a) :
    l ≠ [] := by
  intro hl
  rw [hl] at h
  exact Option.noConfusion h

theorem reopenPrompt_PromptInv (s : TerminalView) (hp : s.prompt = lit "> ") :
    PromptInv (reopenPrompt s) := by
  have hl := reopenPrompt_getLast? s
  obtain ⟨_, _, _, hprompt, _⟩ := reopenPrompt_fields s
  refine ⟨hprompt.trans hp, getLast?_some_ne_nil hl, Or.inl ?_⟩
  rw [hl, hprompt]

theorem processCommand_PromptInv (t : CString) (s : TerminalView) (command : CString)
    (hp : s.prompt = lit "> ") : PromptInv (processCommand t s command) := by
  rcases processCommand_shape t s command with ⟨hc, h⟩ | ⟨ls, h⟩
  · rw [h]
    obtain ⟨_, _, _, hprompt, hlines, _⟩ := stopTerminal_fields
      { s with lines := s.lines.dropLast ++ [s.prompt ++ command] }
    have hlast : (stopTerminal
        { s with lines := s.lines.dropLast ++ [s.prompt ++ command] }).lines.getLast? =
        some (s.prompt ++ command) := by
      rw [hlines]
      exact List.getLast?_concat _
    have hrun : (stopTerminal
        { s with lines := s.lines.dropLast ++ [s.prompt ++ command] }).running = false := by
      unfold stopTerminal
      split_ifs with hr
      · simpa using hr
      · rfl
    refine ⟨hprompt.trans hp, getLast?_some_ne_nil hlast, Or.inr ⟨?_, hrun⟩⟩
    rw [hlast, hprompt, hc]
  · rw [h]
    exact reopenPrompt_PromptInv _ hp

theorem handleCharInput_PromptInv (t : CString) (s : TerminalView) (c : CChar)
    (hs : PromptInv s) : PromptInv (handleCharInput t s c) := by
  by_cases hc : c = 13 ∨ c = 10
  · rw [handleCharInput_submit t s c hc]
    apply processCommand_PromptInv
    unfold submitted
    split_ifs
    · exact hs.1
    · exact hs.1
  · obtain ⟨inp, h⟩ := handleCharInput_edit t s c hc
    rw [h]
    exact hs

theorem handleSpecialKey_PromptInv (t : CString) (s : TerminalView) (k : VirtualKeyCode)
    (hs : PromptInv s) : PromptInv (handleSpecialKey t s k) := by
  cases k with
  | VKEY_RETURN => exact handleCharInput_PromptInv t s 10 hs
  | VKEY_BACK => exact handleCharInput_PromptInv t s 8 hs
  | VKEY_UP =>
    simp only [handleSpecialKey]
    split_ifs
    · exact hs
    · exact hs
  | VKEY_DOWN =>
    simp only [handleSpecialKey]
    split_ifs
    · exact hs
    · exact hs
    · exact hs
  | VKEY_ESCAPE => exact hs
  | VKEY_OTHER => exact hs

theorem startTerminal_PromptInv (s : TerminalView) (hs : PromptInv s) :
    PromptInv (startTerminal s) := by
  unfold startTerminal
  split_ifs
  · exact hs
  · refine ⟨hs.1, ?_, Or.inl ?_⟩
    · simp
    · simp

theorem stopTerminal_PromptInv (s : TerminalView) (hs : PromptInv s) :
    PromptInv (stopTerminal s) := by
  unfold stopTerminal
  split_ifs
  · exact hs
  · obtain ⟨h1, h2, h3⟩ := hs
    refine ⟨h1, h2, ?_⟩
    rcases h3 with h3 | ⟨h3, _⟩
    · exact Or.inl h3
    · exact Or.inr ⟨h3, rfl⟩

theorem onMouseDown_PromptInv (s : TerminalView) (left : Bool) (hs : PromptInv s) :
    PromptInv (onMouseDown s left) := by
  unfold onMouseDown
  split_ifs
  · exact hs
  · exact hs

theorem clear_PromptInv (s : TerminalView) (hs : PromptInv s) : PromptInv (clear s) := by
  refine ⟨hs.1, ?_, Or.inl ?_⟩
  · simp [clear]
  · simp [clear]

theorem draw_PromptInv (s : TerminalView) (now : Int) (hs : PromptInv s) :
    PromptInv (draw s now) := by
  unfold draw updateCursor
  dsimp only
  split_ifs
  · exact hs
  · exact hs

theorem new_PromptInv (now : Int) : PromptInv (TerminalView.new now) := by
  refine ⟨rfl, ?_, Or.inl ?_⟩
  · simp [TerminalView.new]
  · simp [TerminalView.new]

theorem run_PromptInv (now : Int) (ops : List Op) :
    PromptInv (run (TerminalView.new now) ops) :=
  run_preserves PromptInv startTerminal_PromptInv stopTerminal_PromptInv
    handleCharInput_PromptInv handleSpecialKey_PromptInv onMouseDown_PromptInv
    clear_PromptInv draw_PromptInv ops (TerminalView.new now) (new_PromptInv now)

/-- C5, as the claim states it, fails after an `exit` submission: the view is
constructed, started, and `exit` is submitted; the last line of the buffer is
then the echo line, not the prompt. -/
theorem C5_tail_after_exit_is_echo :
    (run (TerminalView.new 0)
        [.startTerminal, .sendInput (fun _ => []) (lit "exit\n")]).lines.getLast? =
      some (lit "> exit") ∧
    (run (TerminalView.new 0)
        [.startTerminal, .sendInput (fun _ => []) (lit "exit\n")]).lines.getLast? ≠
      some (lit "> ") := by
  decide

/-- C5, amended: in every state reached from a freshly constructed view by any
sequence of calls, the line buffer is not empty and its last line is the prompt
string `"> "`, except after an `exit` submission, where the last line is the
echo line `"> exit"` and the session is stopped. -/
theorem C5_prompt_or_exit_echo_at_tail (now : Int) (ops : List Op) :
    (run (TerminalView.new now) ops).lines ≠ [] ∧
    ((run (TerminalView.new now) ops).lines.getLast? = some (lit "> ") ∨
      ((run (TerminalView.new now) ops).lines.getLast? = some (lit "> exit") ∧
        (run (TerminalView.new now) ops).running = false)) := by
  obtain ⟨hp, hne, h⟩ := run_PromptInv now ops
  refine ⟨hne, ?_⟩
  rw [hp] at h
  rcases h with h | ⟨h, hr⟩
  · exact Or.inl h
  · refine Or.inr ⟨?_, hr⟩
    rw [h]
    rfl

/-! ## Focus and run state -/

/-- As `step_preserves`, for the calls other than a left mouse-down. -/
theorem step_preserves_noClick (P : TerminalView → Prop)
    (hstart : ∀ s, P s → P (startTerminal s))
    (hstop : ∀ s, P s → P (stopTerminal s))
    (hchar : ∀ t s c, P s → P (handleCharInput t s c))
    (hkey : ∀ t s k, P s → P (handleSpecialKey t s k))
    (hclear : ∀ s, P s → P (clear s))
    (hdraw : ∀ s now, P s → P (draw s now)) :
    ∀ s op, op.isLeftClick = false → P s → P (step s op) := by
  intro s op hop hs
  cases op with
  | startTerminal => exact hstart s hs
  | stopTerminal => exact hstop s hs
  | sendInput clk input => exact sendInput_preserves P hchar input clk s hs
  | handleCharInput t c => exact hchar t s c hs
  | handleSpecialKey t k => exact hkey t s k hs
  | onKeyDown t k => exact onKeyDown_preserves P hchar hkey t s k hs
  | onMouseDown left =>
    cases left with
    | true => exact absurd hop (by decide)
    | false => exact hs
  | clear => exact hclear s hs
  | draw now => exact hdraw s now hs

/-- The method `processCommand` either keeps the run state and the focus flag or
clears both. -/
theorem processCommand_run_state (t : CString) (s : TerminalView) (command : CString) :
    ((processCommand t s command).running = s.running ∧
      (processCommand t s command).terminalActive = s.terminalActive) ∨
    ((processCommand t s command).running = false ∧
      (processCommand t s command).terminalActive = false) := by
  rcases processCommand_shape t s command with ⟨_, h⟩ | ⟨ls, h⟩
  · rw [h]
    unfold stopTerminal
    split_ifs with hr
    · exact Or.inl ⟨rfl, rfl⟩
    · exact Or.inr ⟨rfl, rfl⟩
  · rw [h]
    obtain ⟨_, _, _, _, h5, h6, _⟩ := reopenPrompt_fields { s with lines := ls }
    exact Or.inl ⟨h5, h6⟩

theorem submitted_run_state (s : TerminalView) :
    (submitted s).running = s.running ∧ (submitted s).terminalActive = s.terminalActive := by
  unfold submitted
  split_ifs
  · exact ⟨rfl, rfl⟩
  · exact ⟨rfl, rfl⟩

/-- The method `handleCharInput` either keeps the run state and the focus flag
or clears both. -/
theorem handleCharInput_run_state (t : CString) (s : TerminalView) (c : CChar) :
    ((handleCharInput t s c).running = s.running ∧
      (handleCharInput t s c).terminalActive = s.terminalActive) ∨
    ((handleCharInput t s c).running = false ∧
      (handleCharInput t s c).terminalActive = false) := by
  by_cases hc : c = 13 ∨ c = 10
  · rw [handleCharInput_submit t s c hc]
    obtain ⟨h1, h2⟩ := submitted_run_state s
    rcases processCommand_run_state t (submitted s) s.currentInput with ⟨h3, h4⟩ | h
    · exact Or.inl ⟨h3.trans h1, h4.trans h2⟩
    · exact Or.inr h
  · obtain ⟨inp, h⟩ := handleCharInput_edit t s c hc
    rw [h]
    exact Or.inl ⟨rfl, rfl⟩

/-- The method `handleSpecialKey` either keeps the run state and the focus flag
or clears both. -/
theorem handleSpecialKey_run_state (t : CString) (s : TerminalView) (k : VirtualKeyCode) :
    ((handleSpecialKey t s k).running = s.running ∧
      (handleSpecialKey t s k).terminalActive = s.terminalActive) ∨
    ((handleSpecialKey t s k).running = false ∧
      (handleSpecialKey t s k).terminalActive = false) := by
  cases k with
  | VKEY_RETURN => exact handleCharInput_run_state t s 10
  | VKEY_BACK => exact handleCharInput_run_state t s 8
  | VKEY_UP =>
    simp only [handleSpecialKey]
    split_ifs
    · exact Or.inl ⟨rfl, rfl⟩
    · exact Or.inl ⟨rfl, rfl⟩
  | VKEY_DOWN =>
    simp only [handleSpecialKey]
    split_ifs
    · exact Or.inl ⟨rfl, rfl⟩
    · exact Or.inl ⟨rfl, rfl⟩
    · exact Or.inl ⟨rfl, rfl⟩
  | VKEY_ESCAPE => exact Or.inl ⟨rfl, rfl⟩
  | VKEY_OTHER => exact Or.inl ⟨rfl, rfl⟩

/-- A property of the run state and the focus flag that holds when both are
cleared is kept by every call other than a left mouse-down. -/
theorem run_state_invariant (Q : Bool → Bool → Prop) (hff : Q false false) (htt : Q true true)
    (ops : List Op) (hops : ∀ op ∈ ops, op.isLeftClick = false) (s : TerminalView)
    (hs : Q s.running s.terminalActive) :
    Q (run s ops).running (run s ops).terminalActive := by
  refine run_induction (fun s => Q s.running s.terminalActive) (fun op => op.isLeftClick = false)
    (step_preserves_noClick (fun s => Q s.running s.terminalActive) ?_ ?_ ?_ ?_ ?_ ?_)
    ops s hops hs
  · intro s hs
    unfold startTerminal
    split_ifs
    · exact hs
    · exact htt
  · intro s hs
    unfold stopTerminal
    split_ifs
    · exact hs
    · exact hff
  · intro t s c hs
    rcases handleCharInput_run_state t s c with ⟨h1, h2⟩ | ⟨h1, h2⟩
    · rw [h1, h2]; exact hs
    · rw [h1, h2]; exact hff
  · intro t s k hs
    rcases handleSpecialKey_run_state t s k with ⟨h1, h2⟩ | ⟨h1, h2⟩
    · rw [h1, h2]; exact hs
    · rw [h1, h2]; exact hff
  · intro s hs
    exact hs
  · intro s now hs
    unfold draw updateCursor
    dsimp only
    split_ifs
    · exact hs
    · exact hs

/-- C6, as the claim states it, fails after a left mouse-down on a freshly
constructed view: `draw` paints the cursor although the session is not running. -/
theorem C6_cursor_drawn_while_stopped :
    cursorDrawn (run (TerminalView.new 0) [.onMouseDown true]) = true ∧
    isRunning (run (TerminalView.new 0) [.onMouseDown true]) = false := by
  decide

/-- One call keeps the focus flag equal to the run state, provided that a left
mouse-down is made only while the session is running. -/
theorem step_focus_eq_running (s : TerminalView) (op : Op)
    (h0 : s.terminalActive = s.running)
    (hop : op.isLeftClick = true → s.running = true) :
    (step s op).terminalActive = (step s op).running := by
  cases hcl : op.isLeftClick with
  | false =>
    exact run_state_invariant (fun r a => a = r) rfl rfl [op]
      (fun o ho => by rw [List.mem_singleton.mp ho]; exact hcl) s h0
  | true =>
    have hr := hop hcl
    cases op with
    | onMouseDown left =>
      cases left with
      | true => exact hr.symm
      | false => exact Bool.noConfusion hcl
    | startTerminal => exact Bool.noConfusion hcl
    | stopTerminal => exact Bool.noConfusion hcl
    | sendInput clk input => exact Bool.noConfusion hcl
    | handleCharInput t c => exact Bool.noConfusion hcl
    | handleSpecialKey t k => exact Bool.noConfusion hcl
    | onKeyDown t k => exact Bool.noConfusion hcl
    | clear => exact Bool.noConfusion hcl
    | draw now => exact Bool.noConfusion hcl

/-- From a state whose focus flag equals the run state, every sequence of calls
whose left mouse-downs are all made while the session is running ends in such
a state. -/
theorem run_focus_eq_running :
    ∀ (ops : List Op) (s : TerminalView), s.terminalActive = s.running →
      clicksWhileRunning s ops = true →
      (run s ops).terminalActive = (run s ops).running := by
  intro ops
  induction ops with
  | nil => intro s h0 _; exact h0
  | cons op ops ih =>
    intro s h0 hc
    simp only [clicksWhileRunning, Bool.and_eq_true, Bool.or_eq_true,
      Bool.not_eq_true'] at hc
    rw [run_cons]
    refine ih (step s op) (step_focus_eq_running s op h0 ?_) hc.2
    intro hcl
    rcases hc.1 with h | h
    · rw [hcl] at h
      exact absurd h (by decide)
    · exact h

/-- One call, of any kind, keeps the focus flag set while the session is running. -/
theorem step_running_imp_focus (s : TerminalView) (op : Op)
    (h0 : s.running = true → s.terminalActive = true) :
    (step s op).running = true → (step s op).terminalActive = true := by
  cases hcl : op.isLeftClick with
  | false =>
    exact run_state_invariant (fun r a => r = true → a = true)
      (fun h => absurd h (by decide)) (fun _ => rfl) [op]
      (fun o ho => by rw [List.mem_singleton.mp ho]; exact hcl) s h0
  | true =>
    cases op with
    | onMouseDown left =>
      cases left with
      | true => exact fun _ => rfl
      | false => exact Bool.noConfusion hcl
    | startTerminal => exact Bool.noConfusion hcl
    | stopTerminal => exact Bool.noConfusion hcl
    | sendInput clk input => exact Bool.noConfusion hcl
    | handleCharInput t c => exact Bool.noConfusion hcl
    | handleSpecialKey t k => exact Bool.noConfusion hcl
    | onKeyDown t k => exact Bool.noConfusion hcl
    | clear => exact Bool.noConfusion hcl
    | draw now => exact Bool.noConfusion hcl

/-- In every state reached from a freshly constructed view, a running session
has the focus flag set. -/
theorem run_running_imp_focus (now : Int) (ops : List Op) :
    (run (TerminalView.new now) ops).running = true →
      (run (TerminalView.new now) ops).terminalActive = true :=
  run_induction (fun s => s.running = true → s.terminalActive = true) (fun _ => True)
    (fun s op _ h => step_running_imp_focus s op h) ops (TerminalView.new now)
    (fun _ _ => trivial) (fun h => Bool.noConfusion h)

/-- After `startTerminal` on a state in which running implies focus, the focus
flag equals the run state. -/
theorem startTerminal_focus_eq_running (s : TerminalView)
    (h0 : s.running = true → s.terminalActive = true) :
    (startTerminal s).terminalActive = (startTerminal s).running := by
  unfold startTerminal
  cases hr : s.running with
  | true =>
    rw [if_pos rfl, h0 hr, hr]
  | false =>
    rw [if_neg (by decide)]

theorem cursorDrawn_imp_running (s : TerminalView) (h : s.terminalActive = s.running)
    (hd : cursorDrawn s = true) : isRunning s = true := by
  unfold cursorDrawn at hd
  unfold isRunning
  rw [← h]
  simp only [Bool.and_eq_true] at hd
  exact hd.2

/-- C6, amended: in every state reached from a freshly constructed view by any
sequence of calls, a running session has the focus flag `terminalActive` set;
and when every left mouse-down of the sequence is made while the session is
running (left clicks on a running session and all other calls are allowed), the
focus flag equals the run state, so the condition under which `draw` paints the
cursor implies that the session is running. The same holds from any
`startTerminal` onward, whatever came before it, when every left mouse-down
after it is made while the session is running: only a left mouse-down on a
stopped session, not yet followed by `startTerminal`, lets the cursor be
painted while stopped. -/
theorem C6_cursor_drawn_implies_running (now : Int) (ops : List Op) :
    (isRunning (run (TerminalView.new now) ops) = true →
      (run (TerminalView.new now) ops).terminalActive = true) ∧
    (clicksWhileRunning (TerminalView.new now) ops = true →
      (run (TerminalView.new now) ops).terminalActive =
        isRunning (run (TerminalView.new now) ops) ∧
      (cursorDrawn (run (TerminalView.new now) ops) = true →
        isRunning (run (TerminalView.new now) ops) = true)) ∧
    (∀ later : List Op,
      clicksWhileRunning (startTerminal (run (TerminalView.new now) ops)) later = true →
      (run (startTerminal (run (TerminalView.new now) ops)) later).terminalActive =
        isRunning (run (startTerminal (run (TerminalView.new now) ops)) later) ∧
      (cursorDrawn (run (startTerminal (run (TerminalView.new now) ops)) later) = true →
        isRunning (run (startTerminal (run (TerminalView.new now) ops)) later) = true)) := by
  refine ⟨run_running_imp_focus now ops, ?_, ?_⟩
  · intro hc
    have h := run_focus_eq_running ops (TerminalView.new now) rfl hc
    exact ⟨h, cursorDrawn_imp_running _ h⟩
  · intro later hc
    have h := run_focus_eq_running later (startTerminal (run (TerminalView.new now) ops))
      (startTerminal_focus_eq_running _ (run_running_imp_focus now ops)) hc
    exact ⟨h, cursorDrawn_imp_running _ h⟩

theorem C6_cursor_drawn_implies_running_witness :
    clicksWhileRunning (TerminalView.new 0)
      [Op.startTerminal, Op.onMouseDown true, Op.sendInput (fun _ => []) (lit "help\n"),
       Op.draw 100] = true ∧
    cursorDrawn (run (TerminalView.new 0)
      [Op.startTerminal, Op.onMouseDown true, Op.sendInput (fun _ => []) (lit "help\n"),
       Op.draw 100]) = true ∧
    isRunning (run (TerminalView.new 0)
      [Op.startTerminal, Op.onMouseDown true, Op.sendInput (fun _ => []) (lit "help\n"),
       Op.draw 100]) = true ∧
    clicksWhileRunning (startTerminal (run (TerminalView.new 0) [Op.onMouseDown true]))
      [Op.onMouseDown true, Op.draw 100] = true ∧
    isRunning (run (startTerminal (run (TerminalView.new 0) [Op.onMouseDown true]))
      [Op.onMouseDown true, Op.draw 100]) = true :=
  ⟨by decide, by decide,
    ((C6_cursor_drawn_implies_running 0
      [Op.startTerminal, Op.onMouseDown true, Op.sendInput (fun _ => []) (lit "help\n"),
       Op.draw 100]).2.1 (by decide)).2 (by decide),
    by decide,
    (((C6_cursor_drawn_implies_running 0 [Op.onMouseDown true]).2.2
      [Op.onMouseDown true, Op.draw 100]) (by decide)).2 (by decide)⟩

/-! ## Scrollback trimming -/

/-- Outside `clear` and `exit`, `processCommand` replaces the tail by the echo
line, pushes the output lines of the command and reopens the prompt. -/
theorem processCommand_eq_reopenPrompt (t : CString) (s : TerminalView) (command : CString)
    (hexit : command ≠ lit "exit") (hclear : command ≠ lit "clear") :
    processCommand t s command =
      reopenPrompt { s with
        lines := s.lines.dropLast ++ [s.prompt ++ command] ++ commandOutput t command } := by
  unfold processCommand commandOutput
  simp only [popLast_eq, pushLines]
  split_ifs with h1 h2 h4 h5 h6
  all_goals first
    | rfl
    | simp only [List.append_nil]

theorem lastN_length {α : Type} (k : Nat) (l : List α) :
    (lastN k l).length = min k l.length := by
  unfold lastN
  rw [List.length_drop]
  omega

theorem lastN_min_length {α : Type} (k : Nat) (l : List α) :
    lastN (min k l.length) l = lastN k l := by
  unfold lastN
  congr 1
  omega

/-- C4, as the claim states it, fails for the command `clear`: on the freshly
constructed view the untrimmed sequence has five lines, all below the bound,
while the buffer after `processCommand` holds the prompt alone. -/
theorem C4_clear_drops_untrimmed_lines :
    (TerminalView.new 0).lines ≠ [] ∧ lit "clear" ≠ lit "exit" ∧
    (untrimmedLines [] (TerminalView.new 0) (lit "clear")).length = 5 ∧
    (processCommand [] (TerminalView.new 0) (lit "clear")).lines = [lit "> "] ∧
    (processCommand [] (TerminalView.new 0) (lit "clear")).lines ≠
      lastN (min 1000 (untrimmedLines [] (TerminalView.new 0) (lit "clear")).length)
        (untrimmedLines [] (TerminalView.new 0) (lit "clear")) := by
  decide

/-- C4, amended: for every state with a non-empty line buffer and every command
other than `exit` and `clear`, the line buffer after `processCommand` equals
the last `min(1000, n)` entries of the untrimmed sequence (old lines without
their tail, the echo line, the output lines of the command, the new prompt),
`n` being the length of that sequence; when `n > 1000` the buffer has exactly
1000 lines. -/
theorem C4_trim_keeps_newest_lines (t : CString) (s : TerminalView) (command : CString)
    (_hlines : s.lines ≠ []) (hexit : command ≠ lit "exit") (hclear : command ≠ lit "clear") :
    (processCommand t s command).lines =
      lastN (min 1000 (untrimmedLines t s command).length) (untrimmedLines t s command) ∧
    (1000 < (untrimmedLines t s command).length →
      (processCommand t s command).lines.length = 1000) := by
  have h : (processCommand t s command).lines = lastN 1000 (untrimmedLines t s command) := by
    rw [processCommand_eq_reopenPrompt t s command hexit hclear, reopenPrompt_lines]
    rfl
  refine ⟨?_, ?_⟩
  · rw [h, lastN_min_length]
  · intro hn
    rw [h, lastN_length]
    omega

theorem C4_trim_keeps_newest_lines_witness :
    ({ TerminalView.new 0 with lines := List.replicate 1000 (lit "x") }).lines ≠ [] ∧
    lit "echo hi" ≠ lit "exit" ∧ lit "echo hi" ≠ lit "clear" ∧
    ((processCommand [] { TerminalView.new 0 with lines := List.replicate 1000 (lit "x") }
        (lit "echo hi")).lines =
      lastN (min 1000 (untrimmedLines []
          { TerminalView.new 0 with lines := List.replicate 1000 (lit "x") }
          (lit "echo hi")).length)
        (untrimmedLines [] { TerminalView.new 0 with lines := List.replicate 1000 (lit "x") }
          (lit "echo hi")) ∧
    (1000 < (untrimmedLines [] { TerminalView.new 0 with lines := List.replicate 1000 (lit "x") }
        (lit "echo hi")).length →
      (processCommand [] { TerminalView.new 0 with lines := List.replicate 1000 (lit "x") }
        (lit "echo hi")).lines.length = 1000)) :=
  ⟨by decide, by decide, by decide,
    C4_trim_keeps_newest_lines [] { TerminalView.new 0 with lines := List.replicate 1000 (lit "x") }
      (lit "echo hi") (by decide) (by decide) (by decide)⟩

/-! ## The help scenario -/

/-- C7, as the claim states it, fails: relative to the pre-submission line count
minus the removed old prompt (`6 - 1`), the line count after `help` and Enter
(`15`) has grown by ten, not by eight; it has grown by nine relative to the
pre-submission count itself. -/
theorem C7_help_adds_more_than_eight :
    (helpTyped 0 []).lines.length = 6 ∧
    (helpSubmitted 0 []).lines.length = 15 ∧
    (helpSubmitted 0 []).lines.length ≠ ((helpTyped 0 []).lines.length - 1) + 8 ∧
    (helpSubmitted 0 []).lines.length ≠ (helpTyped 0 []).lines.length + 8 := by
  decide

/-- C7, amended: in a freshly started session (constructed, then
`startTerminal`), typing `help` and Enter makes the block of eight lines just
before the final prompt equal the fixed help text (heading, six command lines,
blank), preceded by the echo line `"> help"` in place of the old prompt, and
increases the line count by 10 (echo line + heading + 6 help lines + blank +
new prompt) relative to the pre-submission line count minus the removed old
prompt. -/
theorem C7_help_scenario (now : Int) (t : CString) :
    (helpTyped now t).currentInput = lit "help" ∧
    (helpSubmitted now t).lines =
      (helpTyped now t).lines.dropLast ++ [lit "> help"] ++ helpText ++ [lit "> "] ∧
    lastN 8 (helpSubmitted now t).lines.dropLast = helpText ∧
    (helpSubmitted now t).lines.getLast? = some (lit "> ") ∧
    (helpSubmitted now t).lines.length = ((helpTyped now t).lines.length - 1) + 10 := by
  have hbefore : (helpTyped now t).lines =
      [lit "Homecorrupter Terminal v1.0", lit "Type 'help' for available commands", lit "",
       lit "> ", lit "Terminal started", lit "> "] := rfl
  have hafter : (helpSubmitted now t).lines =
      [lit "Homecorrupter Terminal v1.0", lit "Type 'help' for available commands", lit "",
       lit "> ", lit "Terminal started", lit "> help"] ++ helpText ++ [lit "> "] := rfl
  rw [hbefore, hafter]
  exact ⟨rfl, by decide, by decide, by decide, by decide⟩

/-! ## Recording and recalling commands -/

/-- C8: for every state with a non-empty pending input `cmd` (whatever the
command, `exit` and `clear` included), after a submit by carriage return or
newline the history is the old history with `cmd` appended as its last entry,
the history cursor equals the new history length, and the pending input is
empty. -/
theorem C8_submit_records_command (t : CString) (s : TerminalView) (c : CChar)
    (hc : c = 13 ∨ c = 10) (hcmd : s.currentInput ≠ []) :
    (handleCharInput t s c).history = s.history ++ [s.currentInput] ∧
    (handleCharInput t s c).historyIndex = ((handleCharInput t s c).history.length : Int) ∧
    (handleCharInput t s c).currentInput = [] := by
  rw [handleCharInput_submit t s c hc]
  obtain ⟨hh, hi, hin, _⟩ := processCommand_fields t (submitted s) s.currentInput
  rw [hh, hi, hin]
  unfold submitted
  rw [if_pos hcmd]
  exact ⟨rfl, rfl, rfl⟩

theorem C8_submit_records_command_witness :
    ((13 : CChar) = 13 ∨ (13 : CChar) = 10) ∧
    (sendInput (fun _ => []) sampleSession (lit "exit")).currentInput ≠ [] ∧
    ((handleCharInput [] (sendInput (fun _ => []) sampleSession (lit "exit")) 13).history =
      (sendInput (fun _ => []) sampleSession (lit "exit")).history ++
        [(sendInput (fun _ => []) sampleSession (lit "exit")).currentInput] ∧
    (handleCharInput [] (sendInput (fun _ => []) sampleSession (lit "exit")) 13).historyIndex =
      ((handleCharInput [] (sendInput (fun _ => []) sampleSession
        (lit "exit")) 13).history.length : Int) ∧
    (handleCharInput [] (sendInput (fun _ => []) sampleSession (lit "exit")) 13).currentInput =
      []) :=
  ⟨by decide, by decide,
    C8_submit_records_command [] (sendInput (fun _ => []) sampleSession (lit "exit")) 13
      (by decide) (by decide)⟩

theorem vecAt_natCast (v : List CString) (i : Nat) (hi : i < v.length) :
    v[i]? = some (vecAt v (i : Int)) := by
  unfold vecAt
  rw [if_pos (Int.ofNat_nonneg i), Int.toNat_ofNat, List.getD_eq_getElem?_getD,
    List.getElem?_eq_getElem hi]
  rfl

theorem handleSpecialKey_up_at_zero (t : CString) (s : TerminalView)
    (h : s.historyIndex = 0) : handleSpecialKey t s .VKEY_UP = s := by
  simp only [handleSpecialKey]
  rw [if_neg (by omega)]

theorem pressUp_succ (t : CString) (k : Nat) (s : TerminalView) :
    run s (pressUp t (k + 1)) = handleSpecialKey t (run s (pressUp t k)) .VKEY_UP := by
  unfold pressUp
  rw [List.replicate_succ', run_append]
  rfl

/-- After `k` presses of Up from the cursor position past the end, the cursor has
moved back by `k` and, for `k >= 1`, the pending input is the entry under it. -/
theorem run_pressUp (t : CString) (s : TerminalView)
    (hcur : s.historyIndex = (s.history.length : Int)) :
    ∀ k : Nat, k ≤ s.history.length →
      (run s (pressUp t k)).history = s.history ∧
      (run s (pressUp t k)).lines = s.lines ∧
      (run s (pressUp t k)).historyIndex = ((s.history.length - k : Nat) : Int) ∧
      (1 ≤ k → s.history[s.history.length - k]? = some (run s (pressUp t k)).currentInput) := by
  intro k
  induction k with
  | zero =>
    intro _
    exact ⟨rfl, rfl, by simpa using hcur, fun h => absurd h (by decide)⟩
  | succ k ih =>
    intro hk
    obtain ⟨h1, h2, h3, _⟩ := ih (by omega)
    have hne : (run s (pressUp t k)).history ≠ [] := by
      rw [h1]
      intro h0
      rw [h0] at hk
      simp at hk
    have hpos : (run s (pressUp t k)).historyIndex > 0 := by
      rw [h3]
      omega
    have hidx : (run s (pressUp t k)).historyIndex - 1 =
        ((s.history.length - (k + 1) : Nat) : Int) := by
      rw [h3]
      omega
    rw [pressUp_succ]
    simp only [handleSpecialKey]
    rw [if_pos ⟨hne, hpos⟩]
    dsimp only
    refine ⟨h1, h2, hidx, fun _ => ?_⟩
    rw [hidx, h1]
    exact vecAt_natCast s.history _ (by omega)

/-- C9: for every state whose history has length `n` with the cursor at `n`, and
every `k` with `1 <= k <= n`, after `k` presses of the Up key the pending input
is the history entry at position `n - k` and the cursor is `n - k` (history and
line buffer are untouched), so the entries come back newest first; and
pressing Up in any state whose cursor is `0` leaves the whole state unchanged. -/
theorem C9_history_up (t : CString) (s : TerminalView) (k : Nat)
    (hcur : s.historyIndex = (s.history.length : Int))
    (hk1 : 1 ≤ k) (hkn : k ≤ s.history.length) :
    s.history[s.history.length - k]? = some (run s (pressUp t k)).currentInput ∧
    (run s (pressUp t k)).historyIndex = ((s.history.length - k : Nat) : Int) ∧
    (run s (pressUp t k)).history = s.history ∧
    (run s (pressUp t k)).lines = s.lines ∧
    (∀ r : TerminalView, r.historyIndex = 0 → handleSpecialKey t r .VKEY_UP = r) := by
  obtain ⟨h1, h2, h3, h4⟩ := run_pressUp t s hcur k hkn
  exact ⟨h4 hk1, h3, h1, h2, fun r hr => handleSpecialKey_up_at_zero t r hr⟩

theorem C9_history_up_witness :
    sampleSession.historyIndex = (sampleSession.history.length : Int) ∧
    1 ≤ 2 ∧ 2 ≤ sampleSession.history.length ∧
    (sampleSession.history[sampleSession.history.length - 2]? =
        some (run sampleSession (pressUp [] 2)).currentInput ∧
      (run sampleSession (pressUp [] 2)).historyIndex =
        ((sampleSession.history.length - 2 : Nat) : Int) ∧
      (run sampleSession (pressUp [] 2)).history = sampleSession.history ∧
      (run sampleSession (pressUp [] 2)).lines = sampleSession.lines ∧
      (∀ r : TerminalView, r.historyIndex = 0 → handleSpecialKey [] r .VKEY_UP = r)) :=
  ⟨by decide, by decide, by decide,
    C9_history_up [] sampleSession 2 (by decide) (by decide) (by decide)⟩

/-- C10: for every state with a non-empty history of length `n` and cursor `i`
with `0 <= i < n`, the Down key sets the cursor to `i + 1` and the pending
input to `history[i + 1]` when `i < n - 1`, and sets the cursor to `n` and
empties the pending input when `i = n - 1`; in both cases the history and the
line buffer are unchanged. -/
theorem C10_history_down (t : CString) (s : TerminalView) (i : Nat)
    (hne : s.history ≠ []) (hcur : s.historyIndex = (i : Int)) (hi : i < s.history.length) :
    (i < s.history.length - 1 →
      (handleSpecialKey t s .VKEY_DOWN).historyIndex = ((i + 1 : Nat) : Int) ∧
      s.history[i + 1]? = some (handleSpecialKey t s .VKEY_DOWN).currentInput) ∧
    (i = s.history.length - 1 →
      (handleSpecialKey t s .VKEY_DOWN).historyIndex = (s.history.length : Int) ∧
      (handleSpecialKey t s .VKEY_DOWN).currentInput = []) ∧
    (handleSpecialKey t s .VKEY_DOWN).history = s.history ∧
    (handleSpecialKey t s .VKEY_DOWN).lines = s.lines := by
  simp only [handleSpecialKey]
  by_cases hlt : i < s.history.length - 1
  · have hcond : s.history ≠ [] ∧ s.historyIndex < (s.history.length : Int) - 1 :=
      ⟨hne, by omega⟩
    rw [if_pos hcond]
    dsimp only
    have hidx : s.historyIndex + 1 = ((i + 1 : Nat) : Int) := by omega
    refine ⟨fun _ => ⟨hidx, ?_⟩, fun h => absurd h (by omega), rfl, rfl⟩
    rw [hidx]
    exact vecAt_natCast s.history (i + 1) (by omega)
  · have hcond : ¬(s.history ≠ [] ∧ s.historyIndex < (s.history.length : Int) - 1) := by
      intro h
      omega
    have hlast : s.historyIndex = (s.history.length : Int) - 1 := by omega
    rw [if_neg hcond, if_pos hlast]
    exact ⟨fun h => absurd h hlt, fun _ => ⟨rfl, rfl⟩, rfl, rfl⟩

theorem C10_history_down_witness :
    (run sampleSession (pressUp [] 2)).history ≠ [] ∧
    (run sampleSession (pressUp [] 2)).historyIndex = ((1 : Nat) : Int) ∧
    1 < (run sampleSession (pressUp [] 2)).history.length ∧
    ((1 < (run sampleSession (pressUp [] 2)).history.length - 1 →
      (handleSpecialKey [] (run sampleSession (pressUp [] 2)) .VKEY_DOWN).historyIndex =
        ((1 + 1 : Nat) : Int) ∧
      (run sampleSession (pressUp [] 2)).history[1 + 1]? =
        some (handleSpecialKey [] (run sampleSession (pressUp [] 2)) .VKEY_DOWN).currentInput) ∧
    (1 = (run sampleSession (pressUp [] 2)).history.length - 1 →
      (handleSpecialKey [] (run sampleSession (pressUp [] 2)) .VKEY_DOWN).historyIndex =
        ((run sampleSession (pressUp [] 2)).history.length : Int) ∧
      (handleSpecialKey [] (run sampleSession (pressUp [] 2)) .VKEY_DOWN).currentInput = []) ∧
    (handleSpecialKey [] (run sampleSession (pressUp [] 2)) .VKEY_DOWN).history =
      (run sampleSession (pressUp [] 2)).history ∧
    (handleSpecialKey [] (run sampleSession (pressUp [] 2)) .VKEY_DOWN).lines =
      (run sampleSession (pressUp [] 2)).lines) :=
  ⟨by decide, by decide, by decide,
    C10_history_down [] (run sampleSession (pressUp [] 2)) 1 (by decide) (by decide)
      (by decide)⟩

/-! ## The element accesses of the history stay in range -/

/-- In a state that satisfies the cursor range, both accesses `history[...]` of
`handleSpecialKey` read an existing entry, so the value `vecAt` gives to an
index out of range is never used in a state reached from a fresh view. -/
theorem history_access_in_range (s : TerminalView) (hs : HistoryInv s) :
    (s.history ≠ [] ∧ s.historyIndex > 0 →
      0 ≤ s.historyIndex - 1 ∧ s.historyIndex - 1 < (s.history.length : Int)) ∧
    (s.history ≠ [] ∧ s.historyIndex < (s.history.length : Int) - 1 →
      0 ≤ s.historyIndex + 1 ∧ s.historyIndex + 1 < (s.history.length : Int)) := by
  obtain ⟨h1, h2, h3⟩ := hs
  refine ⟨fun h => ?_, fun h => ?_⟩
  · omega
  · have := h3 h.1
    omega

/-! ## Submissions -/

theorem submitted_fields (s : TerminalView) :
    (submitted s).lines = s.lines ∧ (submitted s).prompt = s.prompt ∧
    (submitted s).running = s.running ∧ (submitted s).terminalActive = s.terminalActive ∧
    (submitted s).currentInput = [] ∧
    (submitted s).cursorVisible = s.cursorVisible ∧
    (submitted s).lastBlinkTime = s.lastBlinkTime := by
  unfold submitted
  split_ifs
  · exact ⟨rfl, rfl, rfl, rfl, rfl, rfl, rfl⟩
  · exact ⟨rfl, rfl, rfl, rfl, rfl, rfl, rfl⟩

theorem submitted_of_empty (s : TerminalView) (h : s.currentInput = []) :
    (submitted s).history = s.history ∧ (submitted s).historyIndex = s.historyIndex := by
  unfold submitted
  rw [if_neg (not_not.mpr h)]
  exact ⟨rfl, rfl⟩

/-- The `exit` branch: the tail is replaced by the echo line, then `stopTerminal`
runs and `processCommand` returns. -/
theorem processCommand_exit (t : CString) (s : TerminalView) :
    processCommand t s (lit "exit") =
      stopTerminal { s with lines := s.lines.dropLast ++ [s.prompt ++ lit "exit"] } := by
  unfold processCommand
  simp only [popLast_eq, pushLines]
  rw [if_neg (by decide), if_neg (by decide), if_neg (by decide), if_neg (by decide),
    if_neg (by decide), if_neg (by decide), if_pos (by decide)]

/-- The `clear` branch: the buffer is emptied, then the prompt is reopened. -/
theorem processCommand_clear (t : CString) (s : TerminalView) :
    processCommand t s (lit "clear") = reopenPrompt { s with lines := [] } := by
  unfold processCommand
  simp only [popLast_eq, pushLines]
  rw [if_neg (by decide), if_neg (by decide), if_pos (by decide)]

/-- The line buffer after a submission of a command other than `exit` and
`clear`: the untrimmed sequence cut to its last `maxLines` entries. -/
theorem handleCharInput_submit_lines (t : CString) (s : TerminalView) (c : CChar)
    (hc : c = 13 ∨ c = 10) (hexit : s.currentInput ≠ lit "exit")
    (hclear : s.currentInput ≠ lit "clear") :
    (handleCharInput t s c).lines = lastN maxLines (untrimmedLines t s s.currentInput) := by
  obtain ⟨hl, hp, _⟩ := submitted_fields s
  rw [handleCharInput_submit t s c hc,
    processCommand_eq_reopenPrompt t (submitted s) s.currentInput hexit hclear,
    reopenPrompt_lines]
  unfold untrimmedLines
  dsimp only
  rw [hl, hp]

/-! ## The commands `exit`, `clear` and the empty command -/

theorem stopTerminal_run_state (r : TerminalView) :
    (stopTerminal r).running = false ∧
    (r.running = true → (stopTerminal r).terminalActive = false) ∧
    (r.running = false → (stopTerminal r).terminalActive = r.terminalActive) := by
  unfold stopTerminal
  cases hrun : r.running with
  | true => exact ⟨rfl, fun _ => rfl, fun h => absurd h (by decide)⟩
  | false => exact ⟨hrun, fun h => absurd h (by decide), fun _ => rfl⟩

/-- C11, as the claim states it, fails in a state that is focused but not
running: on a freshly constructed view, focused by a left click, in which `exit`
is typed and submitted, `stopTerminal` returns at its guard and the focus flag
`terminalActive` stays set. -/
theorem C11_exit_keeps_focus_when_stopped :
    focusedExitTyped.lines ≠ [] ∧
    focusedExitTyped.currentInput = lit "exit" ∧
    (step focusedExitTyped (pressReturn [])).running = false ∧
    (step focusedExitTyped (pressReturn [])).terminalActive = true := by
  decide

/-- C11, amended: for every state with a non-empty line buffer, submitting the
command `exit` leaves `running = false`; it leaves `terminalActive = false`
when the session was running, and leaves `terminalActive` as it was when the
session was already stopped; the line buffer equals the old buffer with its
tail replaced by the echo line (prompt followed by `exit`), with no reopened
prompt line after it. -/
theorem C11_exit_command (t : CString) (s : TerminalView) (c : CChar)
    (hc : c = 13 ∨ c = 10) (hlines : s.lines ≠ []) (hin : s.currentInput = lit "exit") :
    (handleCharInput t s c).running = false ∧
    (s.running = true → (handleCharInput t s c).terminalActive = false) ∧
    (s.running = false → (handleCharInput t s c).terminalActive = s.terminalActive) ∧
    (handleCharInput t s c).lines = s.lines.dropLast ++ [s.prompt ++ lit "exit"] ∧
    (handleCharInput t s c).lines.length = s.lines.length ∧
    (handleCharInput t s c).lines.getLast? = some (s.prompt ++ lit "exit") := by
  obtain ⟨hl, hp, hr, ha, _⟩ := submitted_fields s
  have hlen : (s.lines.dropLast ++ [s.prompt ++ lit "exit"]).length = s.lines.length := by
    have := List.length_pos.mpr hlines
    rw [List.length_append, List.length_dropLast, List.length_singleton]
    omega
  rw [handleCharInput_submit t s c hc, hin, processCommand_exit]
  obtain ⟨h1, h2, h3⟩ := stopTerminal_run_state
    { submitted s with lines := (submitted s).lines.dropLast ++ [(submitted s).prompt ++ lit "exit"] }
  obtain ⟨_, _, _, _, h4, _⟩ := stopTerminal_fields
    { submitted s with lines := (submitted s).lines.dropLast ++ [(submitted s).prompt ++ lit "exit"] }
  have h5 : (stopTerminal { submitted s with
      lines := (submitted s).lines.dropLast ++ [(submitted s).prompt ++ lit "exit"] }).lines =
      s.lines.dropLast ++ [s.prompt ++ lit "exit"] := by
    rw [h4]
    dsimp only
    rw [hl, hp]
  refine ⟨h1, fun h => h2 (hr.trans h), fun h => (h3 (hr.trans h)).trans ha, h5, ?_, ?_⟩
  · rw [h5, hlen]
  · rw [h5]
    exact List.getLast?_concat _

theorem C11_exit_command_witness :
    ((13 : CChar) = 13 ∨ (13 : CChar) = 10) ∧
    (sampleTyped (lit "exit")).lines ≠ [] ∧
    (sampleTyped (lit "exit")).currentInput = lit "exit" ∧
    (sampleTyped (lit "exit")).running = true ∧
    ((handleCharInput [] (sampleTyped (lit "exit")) 13).running = false ∧
    ((sampleTyped (lit "exit")).running = true →
      (handleCharInput [] (sampleTyped (lit "exit")) 13).terminalActive = false) ∧
    ((sampleTyped (lit "exit")).running = false →
      (handleCharInput [] (sampleTyped (lit "exit")) 13).terminalActive =
        (sampleTyped (lit "exit")).terminalActive) ∧
    (handleCharInput [] (sampleTyped (lit "exit")) 13).lines =
      (sampleTyped (lit "exit")).lines.dropLast ++
        [(sampleTyped (lit "exit")).prompt ++ lit "exit"] ∧
    (handleCharInput [] (sampleTyped (lit "exit")) 13).lines.length =
      (sampleTyped (lit "exit")).lines.length ∧
    (handleCharInput [] (sampleTyped (lit "exit")) 13).lines.getLast? =
      some ((sampleTyped (lit "exit")).prompt ++ lit "exit")) :=
  ⟨by decide, by decide, by decide, by decide,
    C11_exit_command [] (sampleTyped (lit "exit")) 13 (by decide) (by decide) (by decide)⟩

theorem lastN_singleton {α : Type} (k : Nat) (a : α) (hk : 0 < k) : lastN k [a] = [a] := by
  unfold lastN
  have : [a].length - k = 0 := by
    rw [List.length_singleton]
    omega
  rw [this, List.drop_zero]

/-- C15: for every state, submitting the command `clear` leaves the line buffer
with exactly one line, the prompt string; the echo line of `clear` is not kept. -/
theorem C15_clear_command (t : CString) (s : TerminalView) (c : CChar)
    (hc : c = 13 ∨ c = 10) (hin : s.currentInput = lit "clear") :
    (handleCharInput t s c).lines = [s.prompt] ∧
    (handleCharInput t s c).lines.length = 1 ∧
    s.prompt ++ lit "clear" ∉ (handleCharInput t s c).lines := by
  obtain ⟨_, hp, _⟩ := submitted_fields s
  have h : (handleCharInput t s c).lines = [s.prompt] := by
    rw [handleCharInput_submit t s c hc, hin, processCommand_clear, reopenPrompt_lines]
    dsimp only
    rw [List.nil_append, lastN_singleton _ _ (by decide), hp]
  refine ⟨h, ?_, ?_⟩
  · rw [h]
    rfl
  · rw [h, List.mem_singleton]
    intro heq
    have hlen := congrArg List.length heq
    rw [List.length_append] at hlen
    have h5 : (lit "clear").length = 5 := by decide
    omega

theorem C15_clear_command_witness :
    ((10 : CChar) = 13 ∨ (10 : CChar) = 10) ∧
    (sampleTyped (lit "clear")).currentInput = lit "clear" ∧
    1 < (sampleTyped (lit "clear")).lines.length ∧
    ((handleCharInput [] (sampleTyped (lit "clear")) 10).lines =
      [(sampleTyped (lit "clear")).prompt] ∧
    (handleCharInput [] (sampleTyped (lit "clear")) 10).lines.length = 1 ∧
    (sampleTyped (lit "clear")).prompt ++ lit "clear" ∉
      (handleCharInput [] (sampleTyped (lit "clear")) 10).lines) :=
  ⟨by decide, by decide, by decide,
    C15_clear_command [] (sampleTyped (lit "clear")) 10 (by decide) (by decide)⟩

/-- C14: for every state with an empty pending input and a non-empty line
buffer, a submit replaces the tail line by a bare prompt line and appends a
fresh prompt line (the buffer becomes the old lines without their tail, the
prompt, the prompt, cut to the last 1000 lines), and leaves the history and the
history cursor unchanged. -/
theorem C14_empty_submission (t : CString) (s : TerminalView) (c : CChar)
    (hc : c = 13 ∨ c = 10) (_hlines : s.lines ≠ []) (hin : s.currentInput = []) :
    (handleCharInput t s c).lines = lastN 1000 (s.lines.dropLast ++ [s.prompt, s.prompt]) ∧
    (handleCharInput t s c).history = s.history ∧
    (handleCharInput t s c).historyIndex = s.historyIndex ∧
    (handleCharInput t s c).currentInput = [] := by
  have hl := handleCharInput_submit_lines t s c hc (by rw [hin]; decide) (by rw [hin]; decide)
  obtain ⟨hh, hi, hcur, _⟩ := processCommand_fields t (submitted s) s.currentInput
  obtain ⟨h1, h2⟩ := submitted_of_empty s hin
  obtain ⟨_, _, _, _, h3, _⟩ := submitted_fields s
  refine ⟨?_, ?_, ?_, ?_⟩
  · rw [hl, hin]
    unfold untrimmedLines commandOutput
    rw [if_pos rfl, List.append_nil, List.append_nil, List.append_assoc]
    rfl
  · rw [handleCharInput_submit t s c hc, hh, h1]
  · rw [handleCharInput_submit t s c hc, hi, h2]
  · rw [handleCharInput_submit t s c hc, hcur, h3]

theorem C14_empty_submission_witness :
    ((13 : CChar) = 13 ∨ (13 : CChar) = 10) ∧
    sampleSession.lines ≠ [] ∧ sampleSession.currentInput = [] ∧
    ((handleCharInput [] sampleSession 13).lines =
      lastN 1000 (sampleSession.lines.dropLast ++ [sampleSession.prompt, sampleSession.prompt]) ∧
    (handleCharInput [] sampleSession 13).history = sampleSession.history ∧
    (handleCharInput [] sampleSession 13).historyIndex = sampleSession.historyIndex ∧
    (handleCharInput [] sampleSession 13).currentInput = []) :=
  ⟨by decide, by decide, by decide,
    C14_empty_submission [] sampleSession 13 (by decide) (by decide) (by decide)⟩

/-! ## The command `echo` and unknown commands -/

theorem lastN_lastN {α : Type} (k m : Nat) (l : List α) (hkm : k ≤ m) :
    lastN k (lastN m l) = lastN k l := by
  unfold lastN
  rw [List.drop_drop, List.length_drop]
  congr 1
  omega

theorem lastN_append_right {α : Type} (xs ys : List α) :
    lastN ys.length (xs ++ ys) = ys := by
  unfold lastN
  exact List.drop_left' (by rw [List.length_append]; omega)

theorem take_five_echo (x : CString) : (lit "echo " ++ x).take 5 = lit "echo " :=
  List.take_left' (by decide)

/-- The output lines of `echo` followed by a space and `x`. -/
theorem commandOutput_echo (t : CString) (x : CString) :
    commandOutput t (lit "echo " ++ x) = [x, lit ""] := by
  have h5 := take_five_echo x
  have hne : ∀ w : CString, w.take 5 ≠ lit "echo " → lit "echo " ++ x ≠ w := by
    intro w hw heq
    rw [heq] at h5
    exact hw h5
  unfold commandOutput
  rw [if_neg (hne _ (by decide)), if_neg (hne _ (by decide)), if_neg (hne _ (by decide)),
    if_neg (hne _ (by decide)), if_pos h5, List.drop_left' (by decide)]

/-- C12: for every string `x` and every state with a non-empty line buffer,
submitting the command `echo ` followed by `x` leaves the old lines without
their tail, the echo line (prompt, `echo `, `x`), then exactly two content
lines, `x` verbatim and an empty line, then the reopened prompt, cut to the
last 1000 lines; so the last four lines of the buffer are always the echo
line, `x`, the empty line and the prompt. -/
theorem C12_echo_command (t : CString) (s : TerminalView) (c : CChar) (x : CString)
    (hc : c = 13 ∨ c = 10) (_hlines : s.lines ≠ [])
    (hin : s.currentInput = lit "echo " ++ x) :
    (handleCharInput t s c).lines =
      lastN 1000 (s.lines.dropLast ++ [s.prompt ++ (lit "echo " ++ x), x, lit "", s.prompt]) ∧
    lastN 4 (handleCharInput t s c).lines =
      [s.prompt ++ (lit "echo " ++ x), x, lit "", s.prompt] := by
  have h5 := take_five_echo x
  have hne : ∀ w : CString, w.take 5 ≠ lit "echo " → lit "echo " ++ x ≠ w := by
    intro w hw heq
    rw [heq] at h5
    exact hw h5
  have hl : (handleCharInput t s c).lines =
      lastN 1000 (s.lines.dropLast ++ [s.prompt ++ (lit "echo " ++ x), x, lit "", s.prompt]) := by
    rw [handleCharInput_submit_lines t s c hc (by rw [hin]; exact hne _ (by decide))
      (by rw [hin]; exact hne _ (by decide)), hin]
    unfold untrimmedLines
    rw [commandOutput_echo]
    simp only [List.append_assoc, List.cons_append, List.nil_append]
    rfl
  refine ⟨hl, ?_⟩
  rw [hl, lastN_lastN _ _ _ (by decide)]
  exact lastN_append_right s.lines.dropLast
    [s.prompt ++ (lit "echo " ++ x), x, lit "", s.prompt]

theorem C12_echo_command_witness :
    ((13 : CChar) = 13 ∨ (13 : CChar) = 10) ∧
    (sampleTyped (lit "echo hello world")).lines ≠ [] ∧
    (sampleTyped (lit "echo hello world")).currentInput = lit "echo " ++ lit "hello world" ∧
    ((handleCharInput [] (sampleTyped (lit "echo hello world")) 13).lines =
      lastN 1000 ((sampleTyped (lit "echo hello world")).lines.dropLast ++
        [(sampleTyped (lit "echo hello world")).prompt ++ (lit "echo " ++ lit "hello world"),
         lit "hello world", lit "", (sampleTyped (lit "echo hello world")).prompt]) ∧
    lastN 4 (handleCharInput [] (sampleTyped (lit "echo hello world")) 13).lines =
      [(sampleTyped (lit "echo hello world")).prompt ++ (lit "echo " ++ lit "hello world"),
       lit "hello world", lit "", (sampleTyped (lit "echo hello world")).prompt]) :=
  ⟨by decide, by decide, by decide,
    C12_echo_command [] (sampleTyped (lit "echo hello world")) 13 (lit "hello world")
      (by decide) (by decide) (by decide)⟩

/-- The strings the claim on unknown commands names as unknown, and that the
dispatch indeed does not recognise: `Help`, `help` with a trailing space,
`clear` with a leading space, and `echo` without the space. -/
theorem unknown_command_examples :
    ∀ w ∈ [lit "Help", lit "help ", lit " clear", lit "echo"],
      w ≠ [] ∧ w ≠ lit "help" ∧ w ≠ lit "clear" ∧ w ≠ lit "time" ∧ w ≠ lit "info" ∧
      w ≠ lit "exit" ∧ w.take 5 ≠ lit "echo " := by
  decide

/-- C13: for every command that is not empty, is not exactly one of `help`,
`clear`, `time`, `info`, `exit`, and whose first five characters are not
`echo ` with its space, `processCommand` leaves the old lines without their
tail, the echo line, then exactly the three lines `Unknown command: ` followed
by the command, the help hint, and an empty line, then the reopened prompt,
cut to the last 1000 lines; and the run state and the focus flag are unchanged. -/
theorem C13_unknown_command (t : CString) (s : TerminalView) (command : CString)
    (h0 : command ≠ []) (hhelp : command ≠ lit "help") (hclear : command ≠ lit "clear")
    (htime : command ≠ lit "time") (hinfo : command ≠ lit "info")
    (hexit : command ≠ lit "exit") (hecho : command.take 5 ≠ lit "echo ") :
    (processCommand t s command).lines =
      lastN 1000 (s.lines.dropLast ++
        [s.prompt ++ command,
         lit "Unknown command: " ++ command,
         lit "Type 'help' for available commands",
         lit "",
         s.prompt]) ∧
    (processCommand t s command).running = s.running ∧
    (processCommand t s command).terminalActive = s.terminalActive := by
  have hout : commandOutput t command =
      [lit "Unknown command: " ++ command, lit "Type 'help' for available commands",
       lit ""] := by
    unfold commandOutput
    rw [if_neg h0, if_neg hhelp, if_neg hclear, if_neg htime, if_neg hecho, if_neg hinfo,
      if_neg hexit]
  rw [processCommand_eq_reopenPrompt t s command hexit hclear, reopenPrompt_lines, hout]
  obtain ⟨_, _, _, _, hr, ha, _⟩ := reopenPrompt_fields
    { s with lines := s.lines.dropLast ++ [s.prompt ++ command] ++
      [lit "Unknown command: " ++ command, lit "Type 'help' for available commands", lit ""] }
  refine ⟨?_, hr, ha⟩
  dsimp only
  simp only [List.append_assoc, List.cons_append, List.nil_append]
  rfl

theorem C13_unknown_command_witness :
    lit "Help" ≠ [] ∧ lit "Help" ≠ lit "help" ∧ lit "Help" ≠ lit "clear" ∧
    lit "Help" ≠ lit "time" ∧ lit "Help" ≠ lit "info" ∧ lit "Help" ≠ lit "exit" ∧
    (lit "Help").take 5 ≠ lit "echo " ∧
    ((processCommand [] sampleSession (lit "Help")).lines =
      lastN 1000 (sampleSession.lines.dropLast ++
        [sampleSession.prompt ++ lit "Help",
         lit "Unknown command: " ++ lit "Help",
         lit "Type 'help' for available commands",
         lit "",
         sampleSession.prompt]) ∧
    (processCommand [] sampleSession (lit "Help")).running = sampleSession.running ∧
    (processCommand [] sampleSession (lit "Help")).terminalActive =
      sampleSession.terminalActive) :=
  ⟨by decide, by decide, by decide, by decide, by decide, by decide, by decide,
    C13_unknown_command [] sampleSession (lit "Help") (by decide) (by decide) (by decide)
      (by decide) (by decide) (by decide) (by decide)⟩

/-! ## Start and stop -/

/-- C16: for every state, `startTerminal` on a running session changes nothing,
so a second start after a start changes nothing, while on a stopped session it
sets the run state and the focus flag and appends exactly the two lines
`Terminal started` and the prompt; `stopTerminal` on a stopped session changes
nothing, so a second stop after a stop changes nothing, while on a running
session it clears the run state and the focus flag and leaves the line buffer,
the pending input, the history and the history cursor unchanged. -/
theorem C16_start_stop_idempotent (s : TerminalView) :
    (s.running = true → startTerminal s = s) ∧
    startTerminal (startTerminal s) = startTerminal s ∧
    (s.running = false →
      startTerminal s =
        { s with
          running := true
          terminalActive := true
          lines := s.lines ++ [lit "Terminal started", s.prompt] }) ∧
    (s.running = false → stopTerminal s = s) ∧
    stopTerminal (stopTerminal s) = stopTerminal s ∧
    (s.running = true →
      stopTerminal s = { s with running := false, terminalActive := false }) := by
  refine ⟨?_, ?_, ?_, ?_, ?_, ?_⟩
  · intro h
    unfold startTerminal
    rw [if_pos h]
  · cases h : s.running with
    | true =>
      have hs : startTerminal s = s := by
        unfold startTerminal
        rw [if_pos h]
      rw [hs, hs]
    | false =>
      have hr : (startTerminal s).running = true := by
        unfold startTerminal
        rw [h]
        rfl
      generalize startTerminal s = r at hr
      unfold startTerminal
      rw [if_pos hr]
  · intro h
    unfold startTerminal
    rw [h, List.append_assoc]
    rfl
  · intro h
    unfold stopTerminal
    rw [h]
    rfl
  · have hr : (stopTerminal s).running = false := (stopTerminal_run_state s).1
    generalize stopTerminal s = r at hr
    unfold stopTerminal
    rw [hr]
    rfl
  · intro h
    unfold stopTerminal
    rw [h]
    rfl

/-! ## Character input -/

theorem handleCharInput_filter (t : CString) (s : TerminalView) (c : Int) :
    ((handleCharInput t s c).currentInput = s.currentInput ++ [c] ↔ (32 ≤ c ∧ c ≤ 126)) ∧
    (32 ≤ c ∧ c ≤ 126 →
      handleCharInput t s c = { s with currentInput := s.currentInput ++ [c] }) ∧
    (¬(32 ≤ c ∧ c ≤ 126) → c ≠ 13 → c ≠ 10 → c ≠ 8 → c ≠ 127 →
      handleCharInput t s c = s) := by
  have hprint : 32 ≤ c ∧ c ≤ 126 →
      handleCharInput t s c = { s with currentInput := s.currentInput ++ [c] } := by
    intro h
    have h1 : ¬(c = 13 ∨ c = 10) := by omega
    have h2 : ¬(c = 8 ∨ c = 127) := by omega
    have h3 : c ≥ 32 ∧ c < 127 := by omega
    exact handleCharInput_printable t s c h1 h2 h3
  refine ⟨⟨?_, fun h => by rw [hprint h]⟩, hprint, ?_⟩
  · intro happ
    have hlen := congrArg List.length happ
    rw [List.length_append, List.length_singleton] at hlen
    by_contra hn
    by_cases hc : c = 13 ∨ c = 10
    · rw [handleCharInput_submit t s c hc,
        (processCommand_fields t (submitted s) s.currentInput).2.2.1,
        (submitted_fields s).2.2.2.2.1] at hlen
      simp at hlen
    · by_cases hb : c = 8 ∨ c = 127
      · rw [handleCharInput_erase t s c hc hb] at hlen
        dsimp only at hlen
        rw [List.length_dropLast] at hlen
        omega
      · have hp : ¬(c ≥ 32 ∧ c < 127) := by omega
        rw [handleCharInput_ignored t s c hc hb hp] at hlen
        omega
  · intro hn h13 h10 h8 h127
    have h1 : ¬(c = 13 ∨ c = 10) := by omega
    have h2 : ¬(c = 8 ∨ c = 127) := by omega
    have h3 : ¬(c ≥ 32 ∧ c < 127) := by omega
    exact handleCharInput_ignored t s c h1 h2 h3

/-- C17: for every state and every character `c`, `handleCharInput` appends `c`
to the pending input if and only if `32 <= c <= 126`, and then writes no other
field; and when `c` is outside that range and is not carriage return (13),
newline (10), backspace (8) or DEL (127), the whole state is unchanged. -/
theorem C17_printable_filter (t : CString) (s : TerminalView) (c : CChar) :
    ((handleCharInput t s c).currentInput = s.currentInput ++ [c] ↔ (32 ≤ c ∧ c ≤ 126)) ∧
    (32 ≤ c ∧ c ≤ 126 →
      handleCharInput t s c = { s with currentInput := s.currentInput ++ [c] }) ∧
    (¬(32 ≤ c ∧ c ≤ 126) → c ≠ 13 → c ≠ 10 → c ≠ 8 → c ≠ 127 →
      handleCharInput t s c = s) :=
  handleCharInput_filter t s c

/-- C18: for every state, handling the logical Return key, handling the
character carriage return (13) and handling the character newline (10) produce
the same state: all three run the one submit branch of `handleCharInput`. -/
theorem C18_one_submit_path (t : CString) (s : TerminalView) :
    handleSpecialKey t s .VKEY_RETURN = handleCharInput t s 13 ∧
    handleCharInput t s 13 = handleCharInput t s 10 ∧
    handleSpecialKey t s .VKEY_RETURN = processCommand t (submitted s) s.currentInput := by
  have h13 := handleCharInput_submit t s 13 (Or.inl rfl)
  have h10 := handleCharInput_submit t s 10 (Or.inr rfl)
  have hret : handleSpecialKey t s .VKEY_RETURN = handleCharInput t s 10 := rfl
  exact ⟨by rw [hret, h13, h10], by rw [h13, h10], by rw [hret, h10]⟩

/-! ## Cursor blink -/

theorem updateCursor_toggle (s : TerminalView) (now : Int) (h : now - s.lastBlinkTime ≥ 500) :
    (updateCursor s now).cursorVisible = !s.cursorVisible ∧
    (updateCursor s now).lastBlinkTime = now := by
  unfold updateCursor
  dsimp only
  rw [if_pos h]
  exact ⟨rfl, rfl⟩

theorem updateCursor_keep (s : TerminalView) (now : Int) (h : now - s.lastBlinkTime < 500) :
    updateCursor s now = s := by
  unfold updateCursor
  dsimp only
  rw [if_neg (by omega)]

/-- C19, part (i) as the claim states it, fails: with the last toggle at `0`,
polls at `400` and `600` are `200` ms apart, yet the second poll flips
`visible`, because the elapsed time is measured from the last toggle and not
from the last poll. -/
theorem C19_close_polls_can_flip :
    (TerminalView.new 0).lastBlinkTime ≤ 400 ∧ (400 : Int) ≤ 600 ∧ (600 : Int) - 400 < 500 ∧
    (updateCursor (TerminalView.new 0) 400).cursorVisible = true ∧
    (updateCursor (updateCursor (TerminalView.new 0) 400) 600).cursorVisible = false ∧
    (updateCursor (updateCursor (TerminalView.new 0) 400) 600).cursorVisible ≠
      (updateCursor (TerminalView.new 0) 400).cursorVisible := by
  decide

/-- C19, amended: with the clock in integer milliseconds, for every blink state
and poll times `t1 <= t2` at or after the last toggle, (i) the second poll
leaves `visible` as the first poll left it whenever `t2` is less than 500 ms
after the toggle time that the first poll left, in particular when
`t2 - t1 < 500` and the first poll toggled, and when `t2 - lastToggle < 500`;
(ii) if `t1 - lastToggle < 500 <= t2 - lastToggle`, the first poll leaves
`visible` unchanged and the second poll flips it, so across the two polls it is
flipped exactly once. -/
theorem C19_blink_polling (s : TerminalView) (t1 t2 : Int)
    (_h1 : s.lastBlinkTime ≤ t1) (h2 : t1 ≤ t2) :
    (t2 - (updateCursor s t1).lastBlinkTime < 500 →
      (updateCursor (updateCursor s t1) t2).cursorVisible =
        (updateCursor s t1).cursorVisible) ∧
    (t2 - t1 < 500 → t1 - s.lastBlinkTime ≥ 500 →
      (updateCursor (updateCursor s t1) t2).cursorVisible =
        (updateCursor s t1).cursorVisible) ∧
    (t2 - s.lastBlinkTime < 500 →
      (updateCursor (updateCursor s t1) t2).cursorVisible =
        (updateCursor s t1).cursorVisible) ∧
    (t1 - s.lastBlinkTime < 500 → 500 ≤ t2 - s.lastBlinkTime →
      (updateCursor s t1).cursorVisible = s.cursorVisible ∧
      (updateCursor (updateCursor s t1) t2).cursorVisible = !s.cursorVisible) := by
  have hkeep : t2 - (updateCursor s t1).lastBlinkTime < 500 →
      (updateCursor (updateCursor s t1) t2).cursorVisible =
        (updateCursor s t1).cursorVisible := by
    intro h
    rw [updateCursor_keep (updateCursor s t1) t2 h]
  refine ⟨hkeep, ?_, ?_, ?_⟩
  · intro h h'
    apply hkeep
    rw [(updateCursor_toggle s t1 h').2]
    exact h
  · intro h
    apply hkeep
    rw [updateCursor_keep s t1 (by omega)]
    exact h
  · intro h h'
    rw [updateCursor_keep s t1 h]
    exact ⟨rfl, (updateCursor_toggle s t2 h').1⟩

theorem C19_blink_polling_witness :
    (TerminalView.new 0).lastBlinkTime ≤ 100 ∧ (100 : Int) ≤ 700 ∧
    ((700 - (updateCursor (TerminalView.new 0) 100).lastBlinkTime < 500 →
      (updateCursor (updateCursor (TerminalView.new 0) 100) 700).cursorVisible =
        (updateCursor (TerminalView.new 0) 100).cursorVisible) ∧
    ((700 : Int) - 100 < 500 → 100 - (TerminalView.new 0).lastBlinkTime ≥ 500 →
      (updateCursor (updateCursor (TerminalView.new 0) 100) 700).cursorVisible =
        (updateCursor (TerminalView.new 0) 100).cursorVisible) ∧
    (700 - (TerminalView.new 0).lastBlinkTime < 500 →
      (updateCursor (updateCursor (TerminalView.new 0) 100) 700).cursorVisible =
        (updateCursor (TerminalView.new 0) 100).cursorVisible) ∧
    (100 - (TerminalView.new 0).lastBlinkTime < 500 →
      500 ≤ 700 - (TerminalView.new 0).lastBlinkTime →
      (updateCursor (TerminalView.new 0) 100).cursorVisible =
        (TerminalView.new 0).cursorVisible ∧
      (updateCursor (updateCursor (TerminalView.new 0) 100) 700).cursorVisible =
        !(TerminalView.new 0).cursorVisible)) :=
  ⟨by decide, by decide, C19_blink_polling (TerminalView.new 0) 100 700 (by decide) (by decide)⟩

/-! ## The prompt while the session runs -/

/-- C20: in every state reached from a freshly constructed view by any sequence
of calls in which the session is running, the line buffer is not empty and
its last line is the prompt string, so the line that `processCommand` removes
in its first step is an open prompt line. -/
theorem C20_prompt_at_tail_while_running (now : Int) (ops : List Op)
    (hrun : isRunning (run (TerminalView.new now) ops) = true) :
    (run (TerminalView.new now) ops).lines ≠ [] ∧
    (run (TerminalView.new now) ops).lines.getLast? =
      some (run (TerminalView.new now) ops).prompt ∧
    (run (TerminalView.new now) ops).prompt = lit "> " ∧
    (run (TerminalView.new now) ops).lines.dropLast ++ [lit "> "] =
      (run (TerminalView.new now) ops).lines := by
  obtain ⟨hp, hne, h⟩ := run_PromptInv now ops
  have hlast : (run (TerminalView.new now) ops).lines.getLast? =
      some (run (TerminalView.new now) ops).prompt := by
    rcases h with h | ⟨_, hstop⟩
    · exact h
    · unfold isRunning at hrun
      rw [hstop] at hrun
      exact absurd hrun (by decide)
  refine ⟨hne, hlast, hp, ?_⟩
  apply List.dropLast_append_getLast?
  rw [hlast, hp]
  rfl

theorem C20_prompt_at_tail_while_running_witness :
    isRunning (run (TerminalView.new 0)
      [.startTerminal, .sendInput (fun _ => []) (lit "info\nfoo\n")]) = true ∧
    ((run (TerminalView.new 0)
      [.startTerminal, .sendInput (fun _ => []) (lit "info\nfoo\n")]).lines ≠ [] ∧
    (run (TerminalView.new 0)
      [.startTerminal, .sendInput (fun _ => []) (lit "info\nfoo\n")]).lines.getLast? =
      some (run (TerminalView.new 0)
        [.startTerminal, .sendInput (fun _ => []) (lit "info\nfoo\n")]).prompt ∧
    (run (TerminalView.new 0)
      [.startTerminal, .sendInput (fun _ => []) (lit "info\nfoo\n")]).prompt = lit "> " ∧
    (run (TerminalView.new 0)
      [.startTerminal, .sendInput (fun _ => []) (lit "info\nfoo\n")]).lines.dropLast ++
        [lit "> "] =
      (run (TerminalView.new 0)
        [.startTerminal, .sendInput (fun _ => []) (lit "info\nfoo\n")]).lines) :=
  ⟨by decide, C20_prompt_at_tail_while_running 0 _ (by decide)⟩

/-! ## The content of the pending input and of the history -/

theorem vecAt_nil_or_mem (v : List CString) (i : Int) : vecAt v i = [] ∨ vecAt v i ∈ v := by
  unfold vecAt
  split_ifs
  · rw [List.getD_eq_getElem?_getD]
    cases h : v[i.toNat]? with
    | none => exact Or.inl rfl
    | some e => exact Or.inr (List.getElem?_mem h)
  · exact Or.inl rfl

theorem ContentInv_of_fields {s r : TerminalView} (hh : r.history = s.history)
    (hi : r.currentInput = s.currentInput) (hs : ContentInv s) : ContentInv r := by
  unfold ContentInv at *
  rw [hh, hi]
  exact hs

theorem ContentInv_clear_input (s : TerminalView) (inp : CString) (hs : ContentInv s)
    (hinp : inp = [] ∨ inp ∈ s.history) : ContentInv { s with currentInput := inp } := by
  refine ⟨?_, hs.2⟩
  intro c hc
  rcases hinp with h | h
  · rw [h] at hc
    exact absurd hc (List.not_mem_nil c)
  · exact (hs.2 inp h).2 c hc

theorem submitted_ContentInv (s : TerminalView) (hs : ContentInv s) :
    ContentInv (submitted s) := by
  unfold submitted
  split_ifs with h
  · refine ⟨fun c hc => absurd hc (List.not_mem_nil c), ?_⟩
    intro e he
    rcases List.mem_append.mp he with he | he
    · exact hs.2 e he
    · rw [List.mem_singleton.mp he]
      exact ⟨h, hs.1⟩
  · exact ContentInv_clear_input s [] hs (Or.inl rfl)

theorem handleCharInput_ContentInv (t : CString) (s : TerminalView) (c : Int)
    (hs : ContentInv s) : ContentInv (handleCharInput t s c) := by
  by_cases hc : c = 13 ∨ c = 10
  · rw [handleCharInput_submit t s c hc]
    obtain ⟨hh, _, hi, _⟩ := processCommand_fields t (submitted s) s.currentInput
    exact ContentInv_of_fields hh hi (submitted_ContentInv s hs)
  · by_cases hb : c = 8 ∨ c = 127
    · rw [handleCharInput_erase t s c hc hb]
      exact ⟨fun x hx => hs.1 x (List.dropLast_subset _ hx), hs.2⟩
    · by_cases hp : c ≥ 32 ∧ c < 127
      · rw [handleCharInput_printable t s c hc hb hp]
        refine ⟨?_, hs.2⟩
        intro x hx
        rcases List.mem_append.mp hx with hx | hx
        · exact hs.1 x hx
        · rw [List.mem_singleton.mp hx]
          have h2 : c ≤ 126 := by omega
          exact ⟨hp.1, h2⟩
      · rw [handleCharInput_ignored t s c hc hb hp]
        exact hs

theorem handleSpecialKey_ContentInv (t : CString) (s : TerminalView) (k : VirtualKeyCode)
    (hs : ContentInv s) : ContentInv (handleSpecialKey t s k) := by
  cases k with
  | VKEY_RETURN => exact handleCharInput_ContentInv t s 10 hs
  | VKEY_BACK => exact handleCharInput_ContentInv t s 8 hs
  | VKEY_UP =>
    simp only [handleSpecialKey]
    split_ifs
    · exact ContentInv_clear_input { s with historyIndex := s.historyIndex - 1 } _ hs
        (vecAt_nil_or_mem s.history _)
    · exact hs
  | VKEY_DOWN =>
    simp only [handleSpecialKey]
    split_ifs
    · exact ContentInv_clear_input { s with historyIndex := s.historyIndex + 1 } _ hs
        (vecAt_nil_or_mem s.history _)
    · exact ContentInv_clear_input { s with historyIndex := (s.history.length : Int) } [] hs
        (Or.inl rfl)
    · exact hs
  | VKEY_ESCAPE => exact ContentInv_clear_input s [] hs (Or.inl rfl)
  | VKEY_OTHER => exact hs

theorem startTerminal_ContentInv (s : TerminalView) (hs : ContentInv s) :
    ContentInv (startTerminal s) := by
  unfold startTerminal
  split_ifs
  · exact hs
  · exact hs

theorem stopTerminal_ContentInv (s : TerminalView) (hs : ContentInv s) :
    ContentInv (stopTerminal s) := by
  unfold stopTerminal
  split_ifs
  · exact hs
  · exact hs

theorem onMouseDown_ContentInv (s : TerminalView) (left : Bool) (hs : ContentInv s) :
    ContentInv (onMouseDown s left) := by
  unfold onMouseDown
  split_ifs
  · exact hs
  · exact hs

theorem draw_ContentInv (s : TerminalView) (now : Int) (hs : ContentInv s) :
    ContentInv (draw s now) := by
  unfold draw updateCursor
  dsimp only
  split_ifs
  · exact hs
  · exact hs

theorem new_ContentInv (now : Int) : ContentInv (TerminalView.new now) :=
  ⟨fun c hc => absurd hc (List.not_mem_nil c), fun e he => absurd he (List.not_mem_nil e)⟩

/-- The content invariant on a concrete run: after control bytes, bytes with the
high bit set, a backspace, two submissions and history navigation, the history
holds `he` and `xy`, the pending input holds `xy~`, and the invariant is
evaluated to hold. -/
theorem noisySession_content :
    noisySession.history = [lit "he", lit "xy"] ∧
    noisySession.currentInput = lit "xy~" ∧
    ContentInv noisySession := by
  decide

/-- C21: in every state reached from a freshly constructed view by any sequence
of calls (`sendInput` with arbitrary byte strings, character events and the
special keys Return, Backspace, Up, Down, Escape among them), every character of
the pending input and of every history entry is printable ASCII (`32 .. 126`),
and every history entry is non-empty. -/
theorem C21_content_invariant (now : Int) (ops : List Op) :
    (∀ c ∈ (run (TerminalView.new now) ops).currentInput, 32 ≤ c ∧ c ≤ 126) ∧
    (∀ e ∈ (run (TerminalView.new now) ops).history, ∀ c ∈ e, 32 ≤ c ∧ c ≤ 126) ∧
    (∀ e ∈ (run (TerminalView.new now) ops).history, e ≠ []) := by
  have h : ContentInv (run (TerminalView.new now) ops) :=
    run_preserves ContentInv startTerminal_ContentInv stopTerminal_ContentInv
      handleCharInput_ContentInv handleSpecialKey_ContentInv onMouseDown_ContentInv
      (fun s hs => ContentInv_clear_input { s with lines := [s.prompt] } [] hs (Or.inl rfl))
      draw_ContentInv ops (TerminalView.new now) (new_ContentInv now)
  exact ⟨h.1, fun e he => (h.2 e he).2, fun e he => (h.2 e he).1⟩

end Terminal
